import Mathlib

/-!
# Receipt processor: a shallow embedding of `src/sol/main.go`

The scoring engine `totalPoints` and its helpers are embedded as pure Lean
functions.  The Go library routines the program calls (`strconv.ParseFloat`,
`math.Ceil`, float64 multiplication, `int(float64)`, `strings.TrimSpace`,
`strings.HasSuffix`, `strings.ContainsRune`, `time.Parse`) are embedded from
their documented behaviour:

* a Go `string` is a Lean `String` (a valid UTF-8 text, which is what the JSON
  decoder hands to `totalPoints`); `len` is the UTF-8 byte length and `range`
  walks the code points;
* Go `int` is the 64-bit two's-complement integer: every addition and
  multiplication is followed by `wrap64`;
* `float64` is IEEE-754 binary64 with round-to-nearest-even, kept exactly as
  sign, integer mantissa and binary exponent;
* the Go language leaves `int(f)` implementation-dependent when `f` is NaN,
  infinite or outside the `int` range; that result is the parameter `impl`;
* the handlers `processReceipt` and `getPoints` take the map `ReceiptPoints`
  (a `Store`) and what they read of the request, and return the new map and
  the response; the identifier minted by `uuid.NewString()` is an argument.
-/

namespace ReceiptProcessor

/-! ## Go `int` (64 bit) -/

/-- Two's-complement reduction of an integer into `[-2^63, 2^63)`. -/
def wrap64 (x : Int) : Int := (x + 2 ^ 63) % 2 ^ 64 - 2 ^ 63

/-- Go `a + b` on `int`. -/
def add64 (a b : Int) : Int := wrap64 (a + b)

/-- Go `a * b` on `int`. -/
def mul64 (a b : Int) : Int := wrap64 (a * b)

/-! ## IEEE-754 binary64 -/

/-- A float64 value: NaN, an infinity, or the finite number `(-1)^neg * m * 2^e`
(zero keeps its sign). -/
inductive F64 where
  | nan : F64
  | inf (neg : Bool) : F64
  | fin (neg : Bool) (m : Nat) (e : Int) : F64
  deriving DecidableEq, Repr

/-- Numerator of `num / (den * 2^e)` after clearing a negative exponent. -/
def scaleNum (num : Nat) (e : Int) : Nat :=
  if e < 0 then num * 2 ^ (-e).toNat else num

/-- Denominator of `num / (den * 2^e)` after clearing a negative exponent. -/
def scaleDen (den : Nat) (e : Int) : Nat :=
  if e < 0 then den else den * 2 ^ e.toNat

/-- Number of binary digits of `n` added to `acc`, by halving at most `fuel`
times. -/
def bitLenAux : Nat → Nat → Nat → Nat
  | 0, _, acc => acc
  | fuel + 1, n, acc => if n = 0 then acc else bitLenAux fuel (n / 2) (acc + 1)

/-- Number of binary digits of `n` (`0` for `0`): `2^(bitLen n - 1) ≤ n < 2^(bitLen n)`. -/
def bitLen (n : Nat) : Nat := bitLenAux n n 0

/-- The binary exponent `e` of the unit in the last place of the binary64 that
holds `num / den` (`num, den > 0`): the quotient `num / den / 2^e` lies in
`[2^52, 2^53)`, or `e = -1074` for a subnormal. -/
def ulpExp (num den : Nat) : Int :=
  let k : Int := (bitLen num : Int) - (bitLen den : Int)
  let e0 : Int := k - 52
  let e1 : Int := if scaleNum num e0 / scaleDen den e0 < 2 ^ 52 then e0 - 1 else e0
  max e1 (-1074)

/-- Round the non-negative rational `num / den` (`den > 0`) to the nearest
binary64, ties to even; an overflow gives the infinity. -/
def roundRat (neg : Bool) (num den : Nat) : F64 :=
  if num = 0 then F64.fin neg 0 (-1074)
  else
    let e := ulpExp num den
    let n := scaleNum num e
    let d := scaleDen den e
    let q := n / d
    let r := n % d
    let m := if 2 * r > d ∨ (2 * r = d ∧ q % 2 = 1) then q + 1 else q
    let me : Nat × Int := if m = 2 ^ 53 then (2 ^ 52, e + 1) else (m, e)
    if me.2 > 971 then F64.inf neg else F64.fin neg me.1 me.2

/-- Round the exact number `m * 2^e` to binary64. -/
def roundBin (neg : Bool) (m : Nat) (e : Int) : F64 :=
  roundRat neg (scaleNum m (-e)) (scaleDen 1 (-e))

namespace F64

/-- Go `a * b` on float64. -/
def mul : F64 → F64 → F64
  | nan, _ => nan
  | _, nan => nan
  | inf s, inf t => inf (s != t)
  | inf s, fin t m _ => if m = 0 then nan else inf (s != t)
  | fin s m _, inf t => if m = 0 then nan else inf (s != t)
  | fin s m1 e1, fin t m2 e2 => roundBin (s != t) (m1 * m2) (e1 + e2)

/-- Go `math.Ceil`: the least integer value not below `x`; NaN, the infinities
and the zeros are returned unchanged. -/
def ceil : F64 → F64
  | nan => nan
  | inf s => inf s
  | fin s m e =>
    if 0 ≤ e then fin s m e
    else if s then fin s (m / 2 ^ (-e).toNat) 0
    else fin s ((m + 2 ^ (-e).toNat - 1) / 2 ^ (-e).toNat) 0

/-- The integer part of a finite float64 (truncation toward zero). -/
def trunc (neg : Bool) (m : Nat) (e : Int) : Int :=
  let a : Nat := if 0 ≤ e then m * 2 ^ e.toNat else m / 2 ^ (-e).toNat
  if neg then -(a : Int) else (a : Int)

/-- Go `int(x)` for a float64 `x`: truncation toward zero when the result fits
the 64-bit `int`; otherwise the implementation-dependent value `impl x`. -/
def toInt (impl : F64 → Int) : F64 → Int
  | fin s m e =>
    if -2 ^ 63 ≤ trunc s m e ∧ trunc s m e < 2 ^ 63 then trunc s m e
    else wrap64 (impl (fin s m e))
  | x => wrap64 (impl x)

/-- The rational number held by a finite float64 (`none` for NaN and the
infinities). -/
def toRat : F64 → Option ℚ
  | fin s m e => some ((if s then -1 else 1) * (m : ℚ) * (2 : ℚ) ^ e)
  | _ => none

end F64

/-- What arm64 does for an `int(x)` that does not fit: NaN gives 0, every other
value saturates. -/
def implArm64 : F64 → Int
  | F64.nan => 0
  | F64.inf s => if s then -2 ^ 63 else 2 ^ 63 - 1
  | F64.fin s _ _ => if s then -2 ^ 63 else 2 ^ 63 - 1

/-- The float64 constant `100`. -/
def f64_100 : F64 := roundRat false 100 1

/-- The float64 constant `0.2` (the binary64 nearest to one fifth). -/
def f64_0_2 : F64 := roundRat false 2 10

/-- What x86-64 does for an `int(x)` that does not fit: the "integer
indefinite" value `-2^63`. -/
def implAmd64 : F64 → Int := fun _ => -2 ^ 63

/-! ## `strconv.ParseFloat(s, 64)` -/

/-- The two errors of `strconv`: a malformed text, or a value out of range. -/
inductive NumError where
  | malformed : NumError
  | range : NumError
  deriving DecidableEq, Repr

/-- An ASCII decimal digit. -/
def isDigit (c : Char) : Bool := decide (48 ≤ c.toNat) && decide (c.toNat ≤ 57)

/-- Value of an ASCII decimal digit. -/
def digitVal (c : Char) : Nat := c.toNat - 48

/-- Go strconv `lower(c)`: the byte `c | 0x20` (bytes of a multi-byte code point
never compare equal to an ASCII letter, so they are left alone). -/
def lower (c : Char) : Char :=
  if c.toNat < 128 then Char.ofNat (c.toNat ||| 32) else c

/-- A hexadecimal letter `a`..`f` (after `lower`). -/
def isHexLetter (c : Char) : Bool := decide (97 ≤ c.toNat) && decide (c.toNat ≤ 102)

/-- Go `commonPrefixLenIgnoreCase(s, p)`: length of the longest common prefix of
`s` and the lower-case text `p`, upper-case ASCII letters of `s` folded. -/
def commonPrefixLenIgnoreCase : List Char → List Char → Nat
  | c :: s, p :: ps =>
    let c1 : Char := if 65 ≤ c.toNat ∧ c.toNat ≤ 90 then Char.ofNat (c.toNat + 32) else c
    if c1 = p then commonPrefixLenIgnoreCase s ps + 1 else 0
  | _, _ => 0

/-- The `inf` / `infinity` branch of Go `special`: value and bytes consumed. -/
def specialInf (neg : Bool) (nsign : Nat) (s : List Char) : Option (F64 × Nat) :=
  let n := commonPrefixLenIgnoreCase s "infinity".data
  let n := if 3 < n ∧ n < 8 then 3 else n
  if n = 3 ∨ n = 8 then some (F64.inf neg, nsign + n) else none

/-- Go `special(s)`: the texts `inf`, `infinity` (optionally signed) and `nan`,
in any letter case, at the start of `s`. -/
def special (s : List Char) : Option (F64 × Nat) :=
  match s with
  | [] => none
  | c :: rest =>
    if c = '+' then specialInf false 1 rest
    else if c = '-' then specialInf true 1 rest
    else if c = 'i' ∨ c = 'I' then specialInf false 0 s
    else if c = 'n' ∨ c = 'N' then
      if commonPrefixLenIgnoreCase s "nan".data = 3 then some (F64.nan, 3) else none
    else none

/-- State of the mantissa loop of Go `readFloat`.  `mantissa` keeps every
digit (Go keeps the first 19 and, when digits were dropped, re-reads the text
exactly). -/
structure Digits where
  mantissa : Nat
  nd : Nat
  dp : Int
  sawdot : Bool
  sawdigits : Bool
  underscores : Bool
  deriving DecidableEq, Repr

/-- The mantissa loop of Go `readFloat` (`base` is 10 or 16): returns the state
and the unread rest of the text. -/
def readDigits (base : Nat) : List Char → Digits → Digits × List Char
  | [], st => (st, [])
  | c :: cs, st =>
    if c = '_' then readDigits base cs { st with underscores := true }
    else if c = '.' then
      if st.sawdot then (st, c :: cs)
      else readDigits base cs { st with sawdot := true, dp := st.nd }
    else if isDigit c then
      if c = '0' ∧ st.nd = 0 then
        readDigits base cs { st with sawdigits := true, dp := st.dp - 1 }
      else
        readDigits base cs
          { st with sawdigits := true, nd := st.nd + 1,
                    mantissa := st.mantissa * base + digitVal c }
    else if base = 16 ∧ isHexLetter (lower c) = true then
      readDigits base cs
        { st with sawdigits := true, nd := st.nd + 1,
                  mantissa := st.mantissa * 16 + ((lower c).toNat - 97 + 10) }
    else (st, c :: cs)

/-- The exponent digit loop of Go `readFloat`: the exponent stops growing once
it has reached 10000. -/
def readExpDigits : List Char → Nat → Bool → Nat × Bool × List Char
  | [], e, u => (e, u, [])
  | c :: cs, e, u =>
    if c = '_' then readExpDigits cs e true
    else if isDigit c then
      readExpDigits cs (if e < 10000 then e * 10 + digitVal c else e) u
    else (e, u, c :: cs)

/-- The optional exponent of Go `readFloat` at the text `s`, introduced by
`expChar`: `none` when malformed (or absent from a hexadecimal number),
otherwise the signed exponent, whether an underscore was seen, and the rest. -/
def readExponent (hex : Bool) (expChar : Char) (s : List Char) :
    Option (Int × Bool × List Char) :=
  match s with
  | c :: cs =>
    if lower c = expChar then
      match cs with
      | [] => none
      | d :: ds =>
        let esign : Int := if d = '-' then -1 else 1
        let body : List Char := if d = '+' ∨ d = '-' then ds else d :: ds
        match body with
        | [] => none
        | b :: _ =>
          if isDigit b then
            let r := readExpDigits body 0 false
            some ((r.1 : Int) * esign, r.2.1, r.2.2)
          else none
    else if hex then none else some (0, false, c :: cs)
  | [] => if hex then none else some (0, false, [])

/-- Scan state of Go `underscoreOK`: the kind of the last character seen. -/
inductive Saw where
  | start : Saw
  | digit : Saw
  | underscore : Saw
  | other : Saw
  deriving DecidableEq, Repr

/-- The loop of Go `underscoreOK` over the number proper. -/
def underscoreLoop (hex : Bool) : List Char → Saw → Bool
  | [], saw => decide (saw ≠ Saw.underscore)
  | c :: cs, saw =>
    if isDigit c = true ∨ (hex = true ∧ isHexLetter (lower c) = true) then
      underscoreLoop hex cs Saw.digit
    else if c = '_' then
      if saw ≠ Saw.digit then false else underscoreLoop hex cs Saw.underscore
    else if saw = Saw.underscore then false
    else underscoreLoop hex cs Saw.other

/-- Go `underscoreOK(s)`: an underscore may only stand between two digits, or
between a base prefix and a digit. -/
def underscoreOK (s : List Char) : Bool :=
  let s1 : List Char :=
    match s with
    | c :: cs => if c = '-' ∨ c = '+' then cs else s
    | [] => s
  match s1 with
  | z :: x :: rest =>
    if z = '0' ∧ (lower x = 'b' ∨ lower x = 'o' ∨ lower x = 'x') then
      underscoreLoop (decide (lower x = 'x')) rest Saw.digit
    else underscoreLoop false s1 Saw.start
  | _ => underscoreLoop false s1 Saw.start

/-- The number read by Go `readFloat` from a whole text: sign, exact mantissa,
and the exponent of `base10` (`true`: the value is `mantissa * 10^exp`;
`false`: it is `mantissa * 2^exp`). -/
structure Scanned where
  neg : Bool
  mantissa : Nat
  exp : Int
  base10 : Bool
  deriving DecidableEq, Repr

/-- Go `readFloat(s)` followed by the test of `ParseFloat` that the whole text
was consumed: `none` is the syntax error. -/
def readFloat (s : List Char) : Option Scanned :=
  match s with
  | [] => none
  | c0 :: _ =>
    let neg : Bool := decide (c0 = '-')
    let s1 : List Char := if c0 = '+' ∨ c0 = '-' then s.tail else s
    let hex : Bool :=
      match s1 with
      | z :: x :: _ :: _ => decide (z = '0') && decide (lower x = 'x')
      | _ => false
    let s2 : List Char := if hex then s1.drop 2 else s1
    let r := readDigits (if hex then 16 else 10) s2 ⟨0, 0, 0, false, false, false⟩
    let st := r.1
    if st.sawdigits = false then none
    else
      let dp0 : Int := if st.sawdot then st.dp else (st.nd : Int)
      let dp1 : Int := if hex then dp0 * 4 else dp0
      let ndw : Int := if hex then (st.nd : Int) * 4 else (st.nd : Int)
      match readExponent hex (if hex then 'p' else 'e') r.2 with
      | none => none
      | some (e, u, rest) =>
        if rest ≠ [] then none
        else if (st.underscores || u) = true ∧ underscoreOK s = false then none
        else
          some ⟨neg, st.mantissa, if st.mantissa = 0 then 0 else dp1 + e - ndw, !hex⟩

/-- Go `strconv.ParseFloat(s, 64)`: the special values, else the scanned number
rounded to the nearest binary64 (ties to even); a text that is not a number is
the error `malformed`, a number that rounds to an infinity is the error
`range`. -/
def ParseFloat (s : String) : Except NumError F64 :=
  match special s.data with
  | some (v, n) => if n = s.data.length then Except.ok v else Except.error NumError.malformed
  | none =>
    match readFloat s.data with
    | none => Except.error NumError.malformed
    | some sc =>
      let v : F64 :=
        if sc.base10 then
          (if 0 ≤ sc.exp then roundRat sc.neg (sc.mantissa * 10 ^ sc.exp.toNat) 1
           else roundRat sc.neg sc.mantissa (10 ^ (-sc.exp).toNat))
        else roundBin sc.neg sc.mantissa sc.exp
      match v with
      | F64.inf _ => Except.error NumError.range
      | _ => Except.ok v

/-! ## `strings` -/

/-- Go `len(s)`: the number of bytes of the UTF-8 text. -/
def len (s : List Char) : Nat := (s.map Char.utf8Size).sum

/-- Go `unicode.IsSpace`: the code points with the White_Space property. -/
def isSpace (c : Char) : Bool :=
  let n := c.toNat
  decide (9 ≤ n ∧ n ≤ 13) || decide (n = 32) || decide (n = 133) || decide (n = 160) ||
  decide (n = 5760) || decide (8192 ≤ n ∧ n ≤ 8202) || decide (n = 8232) ||
  decide (n = 8233) || decide (n = 8239) || decide (n = 8287) || decide (n = 12288)

/-- Go `strings.TrimSpace`: the text without its leading and trailing white
space. -/
def TrimSpace (s : List Char) : List Char :=
  ((s.dropWhile isSpace).reverse.dropWhile isSpace).reverse

/-- Go `strings.HasSuffix(s, suffix)`. -/
def HasSuffix (s suffix : List Char) : Bool := suffix.isSuffixOf s

/-- Go `strings.ContainsRune(s, r)` for a valid UTF-8 text `s`. -/
def ContainsRune (s : List Char) (r : Char) : Bool := s.elem r

/-! ## `time.Parse` with the layouts `2006-01-02` and `15:04` -/

/-- The fields of a parsed `time.Time` that the program reads. -/
structure Time where
  year : Nat
  month : Nat
  day : Nat
  hour : Nat
  minute : Nat
  deriving DecidableEq, Repr

/-- Go `getnum(s, fixed)`: one or two leading digits (exactly two when
`fixed`), with the rest of the text. -/
def getnum (s : List Char) (fixed : Bool) : Option (Nat × List Char) :=
  match s with
  | a :: b :: rest =>
    if isDigit a then
      if isDigit b then some (digitVal a * 10 + digitVal b, rest)
      else if fixed then none else some (digitVal a, b :: rest)
    else none
  | [a] => if isDigit a then (if fixed then none else some (digitVal a, [])) else none
  | [] => none

/-- Go `isLeap`. -/
def isLeap (year : Nat) : Bool :=
  decide (year % 4 = 0) && (decide (year % 100 ≠ 0) || decide (year % 400 = 0))

/-- Go `daysIn(month, year)` for a month `1..12`. -/
def daysIn (month year : Nat) : Nat :=
  if month = 2 ∧ isLeap year = true then 29
  else
    match month with
    | 2 => 28
    | 4 => 30
    | 6 => 30
    | 9 => 30
    | 11 => 30
    | _ => 31

/-- Go `skip(value, lit)` for a one-character literal of the layout (`-` or
`:`): the text after that character. -/
def skip (value : List Char) (lit : Char) : Option (List Char) :=
  match value with
  | c :: rest => if c = lit then some rest else none
  | [] => none

/-- The `2006` chunk of a layout: exactly four digits, with the rest of the
text. -/
def getYear (value : List Char) : Option (Nat × List Char) :=
  match value with
  | y1 :: y2 :: y3 :: y4 :: rest =>
    if isDigit y1 && isDigit y2 && isDigit y3 && isDigit y4 then
      some (digitVal y1 * 1000 + digitVal y2 * 100 + digitVal y3 * 10 + digitVal y4, rest)
    else none
  | _ => none

/-- Go `time.Parse("2006-01-02", value)`: four year digits, `-`, two month
digits in `1..12`, `-`, two day digits, nothing after; the day must exist in
that month. `none` is the parse error. -/
def parseDate (value : List Char) : Option Time :=
  match getYear value with
  | none => none
  | some (year, rest) =>
    match skip rest '-' with
    | none => none
    | some rest1 =>
      match getnum rest1 true with
      | none => none
      | some (month, rest2) =>
        if month = 0 ∨ 12 < month then none
        else
          match skip rest2 '-' with
          | none => none
          | some rest3 =>
            match getnum rest3 true with
            | none => none
            | some (day, rest4) =>
              if rest4 ≠ [] then none
              else if day < 1 ∨ day > daysIn month year then none
              else some ⟨year, month, day, 0, 0⟩

/-- Go `time.Parse("15:04", value)`: one or two hour digits below 24, `:`,
two minute digits below 60, nothing after. The date fields default to
January 1 of year 0. `none` is the parse error. -/
def parseClock (value : List Char) : Option Time :=
  match getnum value false with
  | none => none
  | some (hour, rest) =>
    if 24 ≤ hour then none
    else
      match skip rest ':' with
      | none => none
      | some rest1 =>
        match getnum rest1 true with
        | none => none
        | some (minute, rest2) =>
          if 60 ≤ minute then none
          else if rest2 ≠ [] then none
          else some ⟨0, 1, 1, hour, minute⟩

/-! ## The program -/

/-- Source: `type Item struct`. -/
structure Item where
  ShortDescription : String
  Price : String
  deriving DecidableEq, Repr

/-- Source: `type Receipt struct`. -/
structure Receipt where
  Retailer : String
  PurchaseDate : String
  PurchaseTime : String
  Items : List Item
  Total : String
  deriving DecidableEq, Repr

/-- Source: `func isAlphaNumeric(r rune) bool`. -/
def isAlphaNumeric (r : Char) : Bool :=
  ContainsRune "abcdefghijklmnopqrstuvwxyzABCDEFGHIJKLMNOPQRSTUVWXYZ0123456789".data r

/-- Source: `func validateDollar(total string) bool`. -/
def validateDollar (total : String) : Bool :=
  if HasSuffix total.data ".00".data then true else false

/-- Source: `func validatePrice(total string) bool`. -/
def validatePrice (impl : F64 → Int) (total : String) : Bool :=
  match ParseFloat total with
  | Except.error _ => false
  | Except.ok value =>
    let intValue := F64.toInt impl (F64.mul value f64_100)
    decide (Int.tmod intValue 25 = 0)

/-- Source: `func validateDesc(item Item) int`. -/
def validateDesc (impl : F64 → Int) (item : Item) : Int :=
  let trimmedDesc := TrimSpace item.ShortDescription.data
  if len trimmedDesc % 3 = 0 then
    match ParseFloat item.Price with
    | Except.error _ => 0
    | Except.ok price =>
      let additionalPoints := F64.ceil (F64.mul price f64_0_2)
      F64.toInt impl additionalPoints
  else 0

/-- Source: `func totalPoints(receipt Receipt) int`.  The log lines of the two
failed `time.Parse` calls are not part of the result. -/
def totalPoints (impl : F64 → Int) (receipt : Receipt) : Int :=
  let points : Int := 0
  let points := receipt.Retailer.data.foldl
    (fun points char => if isAlphaNumeric char then add64 points 1 else points) points
  let points := if validateDollar receipt.Total then add64 points 50 else points
  let points := if validatePrice impl receipt.Total then add64 points 25 else points
  let points := add64 points (mul64 (Int.tdiv (receipt.Items.length : Int) 2) 5)
  let points := receipt.Items.foldl
    (fun points item => add64 points (validateDesc impl item)) points
  let points :=
    match parseDate receipt.PurchaseDate.data with
    | none => points
    | some date => if date.day % 2 ≠ 0 then add64 points 6 else points
  let points :=
    match parseClock receipt.PurchaseTime.data with
    | none => points
    | some time => if time.hour ≥ 14 ∧ time.hour < 16 then add64 points 10 else points
  points

/-! ## The seven contributions as exact integers -/

/-- Retailer-name rule: number of characters accepted by `isAlphaNumeric`. -/
def retailerPoints (retailer : String) : Int :=
  ((retailer.data.filter isAlphaNumeric).length : Int)

/-- Round-dollar rule: 50 or 0. -/
def dollarPoints (total : String) : Int := if validateDollar total then 50 else 0

/-- Quarter-multiple rule: 25 or 0. -/
def pricePoints (impl : F64 → Int) (total : String) : Int :=
  if validatePrice impl total then 25 else 0

/-- Item-pair rule: five times the number of pairs. -/
def pairPoints (items : List Item) : Int := 5 * ((items.length : Int) / 2)

/-- Item-description rule: the sum of `validateDesc` over the items. -/
def descPoints (impl : F64 → Int) (items : List Item) : Int :=
  (items.map (validateDesc impl)).sum

/-- Odd-purchase-day rule: 6 or 0. -/
def datePoints (date : String) : Int :=
  match parseDate date.data with
  | none => 0
  | some d => if d.day % 2 ≠ 0 then 6 else 0

/-- Afternoon rule: 10 or 0. -/
def timePoints (time : String) : Int :=
  match parseClock time.data with
  | none => 0
  | some t => if t.hour ≥ 14 ∧ t.hour < 16 then 10 else 0

/-- The sum of the seven contributions in unbounded integers. -/
def exactPoints (impl : F64 → Int) (r : Receipt) : Int :=
  retailerPoints r.Retailer + dollarPoints r.Total + pricePoints impl r.Total +
    pairPoints r.Items + descPoints impl r.Items + datePoints r.PurchaseDate +
    timePoints r.PurchaseTime

/-! ## Receipts used in the statements -/

/-- The receipt `r` with another retailer name. -/
def Receipt.withRetailer (r : Receipt) (retailer : String) : Receipt :=
  ⟨retailer, r.PurchaseDate, r.PurchaseTime, r.Items, r.Total⟩

/-- The receipt `r` with another purchase date. -/
def Receipt.withDate (r : Receipt) (date : String) : Receipt :=
  ⟨r.Retailer, date, r.PurchaseTime, r.Items, r.Total⟩

/-- The receipt `r` with another purchase time. -/
def Receipt.withTime (r : Receipt) (time : String) : Receipt :=
  ⟨r.Retailer, r.PurchaseDate, time, r.Items, r.Total⟩

/-- The receipt `r` with another item list. -/
def Receipt.withItems (r : Receipt) (items : List Item) : Receipt :=
  ⟨r.Retailer, r.PurchaseDate, r.PurchaseTime, items, r.Total⟩

/-- The receipt `r` with another total. -/
def Receipt.withTotal (r : Receipt) (total : String) : Receipt :=
  ⟨r.Retailer, r.PurchaseDate, r.PurchaseTime, r.Items, total⟩

/-- Scenario A of the specification. -/
def scenarioA : Receipt :=
  ⟨"Target", "2022-01-01", "13:01",
   [⟨"Mountain Dew 12PK", "6.49"⟩, ⟨"Emils Cheese Pizza", "12.25"⟩,
    ⟨"Knorr Creamy Chicken", "1.26"⟩, ⟨"Doritos Nacho Cheese", "3.35"⟩,
    ⟨"   Klarbrunn 12-PK 12 FL OZ  ", "12.00"⟩],
   "35.35"⟩

/-- Scenario B of the specification. -/
def scenarioB : Receipt :=
  ⟨"M&M Corner Market", "2022-03-20", "14:33",
   [⟨"Gatorade", "2.25"⟩, ⟨"Gatorade", "2.25"⟩, ⟨"Gatorade", "2.25"⟩, ⟨"Gatorade", "2.25"⟩],
   "9.00"⟩

/-- A receipt whose only item has a three-letter description and the price
`-100.00`. -/
def negativePriceReceipt : Receipt := ⟨"", "", "", [⟨"abc", "-100.00"⟩], ""⟩

/-- Two items whose bonuses are `2^63 - 1024` and `1018`: with the 5 points of
the pair they bring the total to `2^63 - 1`, the largest 64-bit `int`. -/
def saturatingItems : List Item := [⟨"abc", "46116860184273870000"⟩, ⟨"abc", "5090"⟩]

/-- A receipt that scores exactly `2^63 - 1`: no retailer, date, time or total
points, and `saturatingItems`. -/
def saturatedReceipt : Receipt := ⟨"", "", "", saturatingItems, ""⟩

/-! ## Predicates that follow the words of the specification -/

/-- A finite float64 that is not negative (a zero of either sign counts). -/
def F64.isNonNegFinite : F64 → Bool
  | F64.fin s m _ => !s || decide (m = 0)
  | _ => false

/-- A finite float64 whose integer part fits the 64-bit `int`. -/
def F64.fitsInt : F64 → Bool
  | F64.fin s m e => decide (-2 ^ 63 ≤ F64.trunc s m e) && decide (F64.trunc s m e < 2 ^ 63)
  | _ => false

/-- The price of an item either fails to parse, or parses to a non-negative
finite number whose fifth, rounded up, fits the 64-bit `int`. -/
def priceNonNeg (item : Item) : Bool :=
  match ParseFloat item.Price with
  | Except.error _ => true
  | Except.ok v => v.isNonNegFinite && (F64.ceil (F64.mul v f64_0_2)).fitsInt

/-- An ASCII letter `a`-`z`, `A`-`Z` or an ASCII digit `0`-`9`. -/
def isAsciiLetterOrDigit (c : Char) : Bool :=
  (decide ('a' ≤ c) && decide (c ≤ 'z')) || (decide ('A' ≤ c) && decide (c ≤ 'Z')) ||
    (decide ('0' ≤ c) && decide (c ≤ '9'))

/-- The last three characters of a text (the whole text when it is shorter). -/
def lastThree (t : List Char) : List Char := t.drop (t.length - 3)

/-- Gregorian leap year: divisible by 4 and not by 100, or divisible by 400. -/
def leapYear (y : Nat) : Bool :=
  (decide (y % 4 = 0) && decide (y % 100 ≠ 0)) || decide (y % 400 = 0)

/-- Number of days of month `m` (1..12) of year `y` in the Gregorian calendar. -/
def daysInMonth (y m : Nat) : Nat :=
  if m = 2 then (if leapYear y then 29 else 28)
  else if m = 4 ∨ m = 6 ∨ m = 9 ∨ m = 11 then 30
  else 31

/-- The year, month and day written in a text of the shape `YYYY-MM-DD` (ten
characters, digits and two hyphens); `none` for any other shape. -/
def dateFields (s : List Char) : Option (Nat × Nat × Nat) :=
  match s with
  | [y1, y2, y3, y4, h1, m1, m2, h2, d1, d2] =>
    if isDigit y1 && isDigit y2 && isDigit y3 && isDigit y4 && decide (h1 = '-') &&
        isDigit m1 && isDigit m2 && decide (h2 = '-') && isDigit d1 && isDigit d2 then
      some (digitVal y1 * 1000 + digitVal y2 * 100 + digitVal y3 * 10 + digitVal y4,
        digitVal m1 * 10 + digitVal m2, digitVal d1 * 10 + digitVal d2)
    else none
  | _ => none

/-- A valid year-month-day calendar date: the shape `YYYY-MM-DD`, a month in
`1..12` and a day that exists in that month. -/
def isValidDateText (s : List Char) : Bool :=
  match dateFields s with
  | some (y, m, d) => decide (1 ≤ m) && decide (m ≤ 12) && decide (1 ≤ d) &&
      decide (d ≤ daysInMonth y m)
  | none => false

/-- A valid calendar date whose day of month is odd. -/
def isOddDayDateText (s : List Char) : Bool :=
  match dateFields s with
  | some (_, _, d) => isValidDateText s && decide (d % 2 = 1)
  | none => false

/-- A 24-hour `hour:minute` text whose hour is 14 or 15: `14:MM` or `15:MM`
with `MM` in `00..59`. -/
def isAfternoonText (s : List Char) : Bool :=
  match s with
  | [a, b, c, d, e] =>
    decide (a = '1') && (decide (b = '4') || decide (b = '5')) && decide (c = ':') &&
      isDigit d && decide (digitVal d < 6) && isDigit e
  | _ => false

/-- The integer part of a rational number: truncation toward zero. -/
def truncRat (q : ℚ) : Int := if 0 ≤ q then ⌊q⌋ else ⌈q⌉

/-- The quarter-multiple rule in the words of the specification: the total
parses as a number `v`, and the product `v * 100` (a float64) truncated toward
zero is divisible by 25.  When the product is NaN, infinite, or its integer
part does not fit the 64-bit `int`, the integer tested is the platform's
`impl` value. -/
def specValidatePrice (impl : F64 → Int) (total : String) : Bool :=
  match ParseFloat total with
  | Except.error _ => false
  | Except.ok v =>
    match (F64.mul v f64_100).toRat with
    | some q =>
      if -2 ^ 63 ≤ truncRat q ∧ truncRat q < 2 ^ 63 then decide ((25 : Int) ∣ truncRat q)
      else decide ((25 : Int) ∣ wrap64 (impl (F64.mul v f64_100)))
    | none => decide ((25 : Int) ∣ wrap64 (impl (F64.mul v f64_100)))

/-- The price bonus of an item in the words of the specification: 0 when the
price does not parse, otherwise the ceiling of the float64 product
`price * 0.2`.  When the product is NaN, infinite, or its ceiling does not fit
the 64-bit `int`, the result is the platform's `impl` value. -/
def specPriceBonus (impl : F64 → Int) (price : String) : Int :=
  match ParseFloat price with
  | Except.error _ => 0
  | Except.ok v =>
    match (F64.mul v f64_0_2).toRat with
    | some q =>
      if -2 ^ 63 ≤ ⌈q⌉ ∧ ⌈q⌉ < 2 ^ 63 then ⌈q⌉
      else wrap64 (impl (F64.ceil (F64.mul v f64_0_2)))
    | none => wrap64 (impl (F64.ceil (F64.mul v f64_0_2)))

/-- The item-description rule in the words of the specification: 0 unless the
length of the trimmed description is a multiple of 3 (0 included), and then the
price bonus. -/
def specValidateDesc (impl : F64 → Int) (item : Item) : Int :=
  if len (TrimSpace item.ShortDescription.data) % 3 = 0 then specPriceBonus impl item.Price
  else 0

/-- The ceiling of the float64 product `price * 0.2` as an unbounded integer
(`none` when the price does not parse or the product is NaN or infinite). -/
def exactCeilFifth (price : String) : Option Int :=
  match ParseFloat price with
  | Except.error _ => none
  | Except.ok v =>
    match F64.ceil (F64.mul v f64_0_2) with
    | F64.fin s m e => some (F64.trunc s m e)
    | _ => none

/-- The integer part of the float64 product `total * 100` as an unbounded
integer (`none` when the total does not parse or the product is NaN or
infinite). -/
def exactCents (total : String) : Option Int :=
  match ParseFloat total with
  | Except.error _ => none
  | Except.ok v =>
    match F64.mul v f64_100 with
    | F64.fin s m e => some (F64.trunc s m e)
    | _ => none

/-! ## The HTTP handlers and the score store -/

/-- Source: `var ReceiptPoints = make(map[string]int)`, as a finite partial
map from identifiers to points. -/
def Store : Type := String → Option Int

/-- The empty map. -/
def Store.empty : Store := fun _ => none

/-- Go `m[key] = value`. -/
def Store.insert (m : Store) (key : String) (value : Int) : Store :=
  fun k => if k = key then some value else m k

/-- What the handlers read of an `*http.Request`: the method, `r.URL.Path`, and
the outcome of decoding the JSON body into a `Receipt` (the error text when the
decoder fails). -/
structure Request where
  Method : String
  Path : String
  Body : Except String Receipt

/-- What a handler writes: the text of `http.Error`, or the JSON object
`{"id": ...}` or `{"points": ...}`. -/
inductive Payload where
  | text (msg : String) : Payload
  | id (id : String) : Payload
  | points (points : Int) : Payload
  deriving DecidableEq, Repr

/-- The HTTP status and the payload of a response. -/
structure Response where
  Status : Nat
  Payload : Payload
  deriving DecidableEq, Repr

/-- Go `strings.Split(s, sep)` for a one-character separator. -/
def Split (s : List Char) (sep : Char) : List (List Char) :=
  match s with
  | [] => [[]]
  | c :: cs =>
    if c = sep then [] :: Split cs sep
    else
      match Split cs sep with
      | seg :: rest => (c :: seg) :: rest
      | [] => [[c]]

/-- Source: `func processReceipt(w http.ResponseWriter, r *http.Request)`.
`uuid` is the value returned by `uuid.NewString()`; the result is the new
content of `ReceiptPoints` and the response. -/
def processReceipt (impl : F64 → Int) (store : Store) (r : Request) (uuid : String) :
    Store × Response :=
  if r.Method ≠ "POST" then
    (store, ⟨405, Payload.text "Only POST method is allowed"⟩)
  else
    match r.Body with
    | Except.error err => (store, ⟨400, Payload.text ("Error decoding JSON: " ++ err)⟩)
    | Except.ok receipt =>
      let points := totalPoints impl receipt
      let receiptID := uuid
      (store.insert receiptID points, ⟨200, Payload.id receiptID⟩)

/-- Source: `func getPoints(w http.ResponseWriter, r *http.Request)`.  The
result is the (unchanged) content of `ReceiptPoints` and the response. -/
def getPoints (store : Store) (r : Request) : Store × Response :=
  let path := r.Path
  let segments := Split path.data '/'
  if segments.length < 4 then
    (store, ⟨400, Payload.text "Invalid request path"⟩)
  else if segments.getD 3 [] ≠ "points".data then
    (store, ⟨400, Payload.text "Invalid request path"⟩)
  else
    let id := String.mk (segments.getD 2 [])
    match store id with
    | none => (store, ⟨404, Payload.text "Receipt not found"⟩)
    | some points => (store, ⟨200, Payload.points points⟩)

/-- A character of the text of a UUID: a lower-case hexadecimal digit or a
hyphen. -/
def isUUIDChar (c : Char) : Bool :=
  isDigit c || isHexLetter c || decide (c = '-')

/-- The text returned by `uuid.NewString()`: 36 characters, hyphens at the
positions 8, 13, 18 and 23, lower-case hexadecimal digits elsewhere. -/
def isUUIDText (s : List Char) : Bool :=
  decide (s.length = 36) && s.all isUUIDChar &&
    (List.range 36).all (fun i =>
      decide (s.getD i ' ' = '-') == decide (i = 8 ∨ i = 13 ∨ i = 18 ∨ i = 23))

/-- The request path `/receipts/{id}/points`. -/
def pointsPath (id : String) : String := "/receipts/" ++ id ++ "/points"

/-- A store that holds 42 points under the identifier `abc`. -/
def sampleStore : Store := Store.empty.insert "abc" 42

/-- Two items whose bonuses are `2^63 - 1024` each: the prices are positive
numbers, and the exact sum of the contributions is `2^64 - 2043`. -/
def overflowingReceipt : Receipt :=
  ⟨"", "", "", [⟨"abc", "46116860184273870000"⟩, ⟨"abc", "46116860184273870000"⟩], ""⟩

/-- A sample UUID text. -/
def sampleUUID : String := "123e4567-e89b-12d3-a456-426614174000"

/-- The number written by a list of decimal digits. -/
def decVal (ds : List Char) : Nat := ds.foldl (fun a c => a * 10 + digitVal c) 0

/-- A non-negative decimal with exactly two fraction digits: the digits `ds` of
the integer part (at least one), a point, and the two digits `y1`, `y2`. -/
def twoDecimalText (ds : List Char) (y1 y2 : Char) : String :=
  String.mk (ds ++ ['.', y1, y2])

/-- The amount in cents written by `twoDecimalText ds y1 y2`. -/
def centsOf (ds : List Char) (y1 y2 : Char) : Nat := decVal (ds ++ [y1, y2])


/-! ## Arithmetic of `wrap64` and the decomposition of the total -/

theorem wrap64_wrap64_add (a b : Int) : wrap64 (wrap64 a + b) = wrap64 (a + b) := by
  unfold wrap64
  norm_num
  omega

theorem wrap64_idem (a : Int) : wrap64 (wrap64 a) = wrap64 a := by
  unfold wrap64
  norm_num

theorem wrap64_add_wrap64 (a b : Int) : wrap64 (a + wrap64 b) = wrap64 (a + b) := by
  unfold wrap64
  norm_num
  omega

theorem wrap64_of_range (a : Int) (h1 : -2 ^ 63 ≤ a) (h2 : a < 2 ^ 63) : wrap64 a = a := by
  unfold wrap64
  norm_num at h1 h2 ⊢
  omega

theorem wrap64_range (a : Int) : -2 ^ 63 ≤ wrap64 a ∧ wrap64 a < 2 ^ 63 := by
  unfold wrap64
  norm_num
  omega

theorem step_if (c : Prop) [Decidable c] (p k : Int) (hp : wrap64 p = p) :
    (if c then add64 p k else p) = wrap64 (p + (if c then k else 0)) := by
  split <;> simp [add64, hp]

theorem foldl_retailer (cs : List Char) (p : Int) (hp : wrap64 p = p) :
    cs.foldl (fun points char => if isAlphaNumeric char then add64 points 1 else points) p
      = wrap64 (p + ((cs.filter isAlphaNumeric).length : Int)) := by
  induction cs generalizing p with
  | nil => simp [hp]
  | cons c cs ih =>
    by_cases hc : isAlphaNumeric c = true
    · simp only [List.foldl_cons, hc, if_true, List.filter_cons_of_pos, List.length_cons]
      rw [ih _ (by unfold add64; exact wrap64_idem _)]
      unfold add64
      rw [wrap64_wrap64_add]
      push_cast
      ring_nf
    · rw [List.filter_cons_of_neg hc]
      simp only [List.foldl_cons, hc]
      exact ih p hp

theorem foldl_items (impl : F64 → Int) (items : List Item) (p : Int) (hp : wrap64 p = p) :
    items.foldl (fun points item => add64 points (validateDesc impl item)) p
      = wrap64 (p + (items.map (validateDesc impl)).sum) := by
  induction items generalizing p with
  | nil => simp [hp]
  | cons it items ih =>
    simp only [List.foldl_cons, List.map_cons, List.sum_cons]
    rw [ih _ (by unfold add64; exact wrap64_idem _)]
    unfold add64
    rw [wrap64_wrap64_add, add_assoc]

/-- The program's total is the exact sum of the seven contributions reduced to
the 64-bit `int`. -/
theorem totalPoints_eq_wrap (impl : F64 → Int) (r : Receipt) :
    totalPoints impl r = wrap64 (exactPoints impl r) := by
  have h0 : wrap64 0 = 0 := by unfold wrap64; norm_num
  unfold totalPoints exactPoints retailerPoints dollarPoints pricePoints pairPoints descPoints
    datePoints timePoints
  simp only []
  rw [foldl_retailer _ 0 h0, zero_add]
  generalize ((List.filter isAlphaNumeric r.Retailer.data).length : Int) = a
  rw [step_if _ _ 50 (wrap64_idem _), wrap64_wrap64_add]
  rw [step_if _ _ 25 (wrap64_idem _), wrap64_wrap64_add]
  have hpair : mul64 (Int.tdiv (r.Items.length : Int) 2) 5 = wrap64 (5 * ((r.Items.length : Int) / 2)) := by
    unfold mul64
    congr 1
    have : Int.tdiv (r.Items.length : Int) 2 = (r.Items.length : Int) / 2 := by
      rw [Int.tdiv_eq_ediv] <;> omega
    rw [this]; ring
  rw [hpair]
  rw [foldl_items impl _ _ (by unfold add64; exact wrap64_idem _)]
  have hadd : ∀ x y : Int, add64 x y = wrap64 (x + y) := fun _ _ => rfl
  generalize (if validateDollar r.Total = true then (50 : Int) else 0) = b
  generalize (if validatePrice impl r.Total = true then (25 : Int) else 0) = c
  generalize (5 * ((r.Items.length : Int) / 2)) = d
  generalize (List.map (validateDesc impl) r.Items).sum = e
  cases parseDate r.PurchaseDate.data with
  | none =>
    cases parseClock r.PurchaseTime.data with
    | none => simp [hadd, wrap64_wrap64_add, wrap64_add_wrap64, add_assoc]
    | some t =>
      by_cases h : t.hour ≥ 14 ∧ t.hour < 16 <;>
        simp [h, hadd, wrap64_wrap64_add, wrap64_add_wrap64, add_assoc]
  | some dt =>
    cases parseClock r.PurchaseTime.data with
    | none =>
      by_cases h : dt.day % 2 = 0 <;>
        simp [h, hadd, wrap64_wrap64_add, wrap64_add_wrap64, add_assoc]
    | some t =>
      by_cases h : t.hour ≥ 14 ∧ t.hour < 16 <;> by_cases h2 : dt.day % 2 = 0 <;>
        simp [h, h2, hadd, wrap64_wrap64_add, wrap64_add_wrap64, add_assoc]

/-! ## Signs of the float64 operations -/

theorem f64_0_2_eq : f64_0_2 = F64.fin false 7205759403792794 (-55) := by decide!

theorem f64_100_eq : f64_100 = F64.fin false 7036874417766400 (-46) := by decide!

theorem roundRat_sign (s : Bool) (n d : Nat) :
    roundRat s n d = F64.inf s ∨ ∃ m e, roundRat s n d = F64.fin s m e ∧ (n = 0 → m = 0) := by
  unfold roundRat
  by_cases hn : n = 0
  · right
    exact ⟨0, -1074, by simp [hn], fun _ => rfl⟩
  · simp only [hn, if_false]
    generalize (ite (_ = 2 ^ 53) _ _ : Nat × Int) = me
    by_cases h : me.2 > 971
    · left; simp [h]
    · right
      exact ⟨me.1, me.2, by simp [h], by intro h0; simp_all⟩

theorem roundBin_sign (s : Bool) (m : Nat) (e : Int) :
    roundBin s m e = F64.inf s ∨
      ∃ m1 e1, roundBin s m e = F64.fin s m1 e1 ∧ (m = 0 → m1 = 0) := by
  unfold roundBin
  rcases roundRat_sign s (scaleNum m (-e)) (scaleDen 1 (-e)) with h | ⟨m1, e1, h, h0⟩
  · left; exact h
  · right
    refine ⟨m1, e1, h, fun hm => h0 ?_⟩
    subst hm
    unfold scaleNum
    split <;> simp

theorem trunc_nonneg (s : Bool) (m : Nat) (e : Int) (h : s = false ∨ m = 0) :
    0 ≤ F64.trunc s m e := by
  unfold F64.trunc
  rcases h with h | h
  · subst h
    simp only [Bool.false_eq_true, if_false]
    exact Int.natCast_nonneg _
  · subst h
    cases s <;> simp

theorem ceil_mul_sign (v : F64) (hv : v.isNonNegFinite = true)
    (hfit : (F64.ceil (F64.mul v f64_0_2)).fitsInt = true) :
    ∃ s m e, F64.ceil (F64.mul v f64_0_2) = F64.fin s m e ∧ (s = false ∨ m = 0) := by
  cases v with
  | nan => simp [F64.isNonNegFinite] at hv
  | inf s => simp [F64.isNonNegFinite] at hv
  | fin sv mv ev =>
    rw [f64_0_2_eq] at hfit ⊢
    simp only [F64.mul] at hfit ⊢
    have hsv : (sv != false) = sv := by cases sv <;> rfl
    rw [hsv] at hfit ⊢
    rcases roundBin_sign sv (mv * 7205759403792794) (ev + -55) with h | ⟨m1, e1, h, h0⟩
    · rw [h] at hfit
      simp [F64.ceil, F64.fitsInt] at hfit
    · rw [h]
      have hz : sv = false ∨ m1 = 0 := by
        simp only [F64.isNonNegFinite, Bool.or_eq_true, Bool.not_eq_true', decide_eq_true_eq] at hv
        rcases hv with hv | hv
        · left; exact hv
        · right; exact h0 (by simp [hv])
      simp only [F64.ceil]
      split
      · exact ⟨sv, m1, e1, rfl, hz⟩
      · split
        · refine ⟨sv, _, 0, rfl, ?_⟩
          rcases hz with hz | hz
          · left; exact hz
          · right; subst hz; simp
        · rename_i hs
          refine ⟨sv, _, 0, rfl, ?_⟩
          left
          simpa using hs

theorem toInt_of_fitsInt (impl : F64 → Int) (s : Bool) (m : Nat) (e : Int)
    (h : (F64.fin s m e).fitsInt = true) :
    F64.toInt impl (F64.fin s m e) = F64.trunc s m e := by
  simp only [F64.fitsInt, Bool.and_eq_true, decide_eq_true_eq] at h
  simp only [F64.toInt]
  rw [if_pos h]

theorem validateDesc_nonneg (impl : F64 → Int) (item : Item) (h : priceNonNeg item = true) :
    0 ≤ validateDesc impl item := by
  unfold validateDesc
  unfold priceNonNeg at h
  simp only []
  split
  · cases hp : ParseFloat item.Price with
    | error err => simp
    | ok v =>
      rw [hp] at h
      simp only [Bool.and_eq_true] at h
      obtain ⟨s, m, e, hx, hz⟩ := ceil_mul_sign v h.1 h.2
      simp only []
      have hfit := h.2
      rw [hx] at hfit ⊢
      rw [toInt_of_fitsInt impl s m e hfit]
      exact trunc_nonneg s m e hz
  · exact le_refl _

theorem contributions_nonneg (impl : F64 → Int) (r : Receipt) :
    0 ≤ retailerPoints r.Retailer ∧ 0 ≤ dollarPoints r.Total ∧ 0 ≤ pricePoints impl r.Total ∧
      0 ≤ pairPoints r.Items ∧ 0 ≤ datePoints r.PurchaseDate ∧ 0 ≤ timePoints r.PurchaseTime := by
  refine ⟨?_, ?_, ?_, ?_, ?_, ?_⟩
  · unfold retailerPoints; exact Int.natCast_nonneg _
  · unfold dollarPoints; split <;> decide
  · unfold pricePoints; split <;> decide
  · unfold pairPoints; omega
  · unfold datePoints
    split
    · decide
    · split <;> decide
  · unfold timePoints
    split
    · decide
    · split <;> decide

theorem isAlphaNumeric_ascii_table :
    ∀ n : Fin 128, isAlphaNumeric (Char.ofNat n.val) = isAsciiLetterOrDigit (Char.ofNat n.val) := by
  decide!

theorem isAlphaNumeric_eq (c : Char) : isAlphaNumeric c = isAsciiLetterOrDigit c := by
  by_cases h : c.toNat < 128
  · have := isAlphaNumeric_ascii_table ⟨c.toNat, h⟩
    simpa using this
  · have h1 : isAlphaNumeric c = false := by
      unfold isAlphaNumeric ContainsRune
      have hall : ∀ x ∈ "abcdefghijklmnopqrstuvwxyzABCDEFGHIJKLMNOPQRSTUVWXYZ0123456789".data,
          x.toNat < 128 := by decide
      cases hm : List.elem c "abcdefghijklmnopqrstuvwxyzABCDEFGHIJKLMNOPQRSTUVWXYZ0123456789".data with
      | false => rfl
      | true =>
        have := hall c (List.mem_of_elem_eq_true hm)
        exact absurd this h
    have h2 : isAsciiLetterOrDigit c = false := by
      unfold isAsciiLetterOrDigit
      have hz : ¬ c ≤ 'z' := by
        intro hle
        have : c.toNat ≤ 'z'.toNat := hle
        have h122 : 'z'.toNat = 122 := by decide
        omega
      have hZ : ¬ c ≤ 'Z' := by
        intro hle
        have : c.toNat ≤ 'Z'.toNat := hle
        have h90 : 'Z'.toNat = 90 := by decide
        omega
      have h9 : ¬ c ≤ '9' := by
        intro hle
        have : c.toNat ≤ '9'.toNat := hle
        have h57 : '9'.toNat = 57 := by decide
        omega
      simp [hz, hZ, h9]
    rw [h1, h2]

theorem validatePrice_empty (impl : F64 → Int) : validatePrice impl "" = false := rfl

theorem exactPoints_withTotal_empty (impl : F64 → Int) (r : Receipt) :
    exactPoints impl (r.withTotal "") =
      retailerPoints r.Retailer + pairPoints r.Items + descPoints impl r.Items +
        datePoints r.PurchaseDate + timePoints r.PurchaseTime := by
  have h1 : dollarPoints "" = 0 := by decide
  have h2 : pricePoints impl "" = 0 := by unfold pricePoints; rw [validatePrice_empty]; rfl
  simp only [exactPoints, Receipt.withTotal, h1, h2]
  ring

/-- The total of a receipt against the same receipt with the empty total. -/
theorem totalPoints_withTotal (impl : F64 → Int) (r : Receipt) (t : String) :
    totalPoints impl (r.withTotal t) =
      wrap64 (totalPoints impl (r.withTotal "") + dollarPoints t + pricePoints impl t) := by
  rw [totalPoints_eq_wrap, totalPoints_eq_wrap, add_assoc, wrap64_wrap64_add,
    exactPoints_withTotal_empty]
  congr 1
  simp only [exactPoints, Receipt.withTotal]
  ring

/-! ## `time.Parse` against the calendar -/

theorem daysIn_eq (y m : Nat) (h1 : 1 ≤ m) (h2 : m ≤ 12) : daysIn m y = daysInMonth y m := by
  have hl : isLeap y = leapYear y := by
    unfold isLeap leapYear
    by_cases a : y % 4 = 0 <;> by_cases b : y % 100 = 0 <;> by_cases c : y % 400 = 0 <;>
      simp [a, b, c] <;> omega
  unfold daysIn daysInMonth
  rw [hl]
  interval_cases m <;> simp

theorem getnum_fixed (a b : Char) (rest : List Char) :
    getnum (a :: b :: rest) true =
      if isDigit a && isDigit b then some (digitVal a * 10 + digitVal b, rest) else none := by
  unfold getnum
  cases ha : isDigit a <;> cases hb : isDigit b <;> simp [ha, hb]

theorem getnum_fixed_one (a : Char) : getnum [a] true = none := by
  unfold getnum
  cases h : isDigit a <;> simp [h]

theorem getnum_fixed_nil : getnum [] true = none := rfl

theorem skip_cons (c lit : Char) (rest : List Char) :
    skip (c :: rest) lit = if c = lit then some rest else none := rfl

theorem skip_nil (lit : Char) : skip [] lit = none := rfl

theorem getYear_cons (y1 y2 y3 y4 : Char) (rest : List Char) :
    getYear (y1 :: y2 :: y3 :: y4 :: rest) =
      if isDigit y1 && isDigit y2 && isDigit y3 && isDigit y4 then
        some (digitVal y1 * 1000 + digitVal y2 * 100 + digitVal y3 * 10 + digitVal y4, rest)
      else none := rfl

theorem getYear_some (s rest : List Char) (y : Nat) (h : getYear s = some (y, rest)) :
    ∃ y1 y2 y3 y4, s = y1 :: y2 :: y3 :: y4 :: rest := by
  rcases s with _ | ⟨y1, _ | ⟨y2, _ | ⟨y3, _ | ⟨y4, tl⟩⟩⟩⟩
  · simp [getYear] at h
  · simp [getYear] at h
  · simp [getYear] at h
  · simp [getYear] at h
  · rw [getYear_cons] at h
    split at h
    · simp only [Option.some.injEq, Prod.mk.injEq] at h
      exact ⟨y1, y2, y3, y4, by rw [h.2]⟩
    · simp at h

theorem skip_some (s rest : List Char) (lit : Char) (h : skip s lit = some rest) :
    s = lit :: rest := by
  rcases s with _ | ⟨c, tl⟩
  · simp [skip] at h
  · rw [skip_cons] at h
    split at h
    · simp only [Option.some.injEq] at h
      subst_vars
      rfl
    · simp at h

theorem getnum_fixed_some (s rest : List Char) (n : Nat) (h : getnum s true = some (n, rest)) :
    ∃ a b, s = a :: b :: rest := by
  rcases s with _ | ⟨a, _ | ⟨b, tl⟩⟩
  · simp [getnum] at h
  · rw [getnum_fixed_one] at h
    simp at h
  · rw [getnum_fixed] at h
    split at h
    · simp only [Option.some.injEq, Prod.mk.injEq] at h
      exact ⟨a, b, by rw [h.2]⟩
    · simp at h

theorem parseDate_shape (s : List Char) (t : Time) (h : parseDate s = some t) :
    ∃ y1 y2 y3 y4 m1 m2 d1 d2, s = [y1, y2, y3, y4, '-', m1, m2, '-', d1, d2] := by
  unfold parseDate at h
  cases hY : getYear s with
  | none => simp [hY] at h
  | some p =>
    obtain ⟨year, rest⟩ := p
    simp only [hY] at h
    cases hS : skip rest '-' with
    | none => simp [hS] at h
    | some rest1 =>
      simp only [hS] at h
      cases hM : getnum rest1 true with
      | none => simp [hM] at h
      | some q =>
        obtain ⟨month, rest2⟩ := q
        simp only [hM] at h
        split at h
        · simp at h
        · cases hS2 : skip rest2 '-' with
          | none => simp [hS2] at h
          | some rest3 =>
            simp only [hS2] at h
            cases hD : getnum rest3 true with
            | none => simp [hD] at h
            | some q2 =>
              obtain ⟨day, rest4⟩ := q2
              simp only [hD] at h
              split at h
              · simp at h
              · rename_i h4
                have h4 : rest4 = [] := by simpa using h4
                subst h4
                obtain ⟨y1, y2, y3, y4, e1⟩ := getYear_some s rest year hY
                have e2 := skip_some rest rest1 '-' hS
                obtain ⟨m1, m2, e3⟩ := getnum_fixed_some rest1 rest2 month hM
                have e4 := skip_some rest2 rest3 '-' hS2
                obtain ⟨d1, d2, e5⟩ := getnum_fixed_some rest3 [] day hD
                exact ⟨y1, y2, y3, y4, m1, m2, d1, d2, by rw [e1, e2, e3, e4, e5]⟩

theorem parseDate_eq_ten (y1 y2 y3 y4 h1 m1 m2 h2 d1 d2 : Char) :
    parseDate [y1, y2, y3, y4, h1, m1, m2, h2, d1, d2] =
      match dateFields [y1, y2, y3, y4, h1, m1, m2, h2, d1, d2] with
      | some (y, m, d) =>
        if isValidDateText [y1, y2, y3, y4, h1, m1, m2, h2, d1, d2] then some ⟨y, m, d, 0, 0⟩
        else none
      | none => none := by
  unfold isValidDateText
  simp only [parseDate, dateFields, getYear_cons, skip_cons]
  by_cases hy : (isDigit y1 && isDigit y2 && isDigit y3 && isDigit y4) = true
  · by_cases hh1 : h1 = '-'
    · subst hh1
      simp only [hy, getnum_fixed]
      by_cases hm : (isDigit m1 && isDigit m2) = true
      · by_cases hh2 : h2 = '-'
        · subst hh2
          by_cases hd : (isDigit d1 && isDigit d2) = true
          · have hd2 : (isDigit d1 && isDigit d2) = true := hd
            simp only [Bool.and_eq_true] at hy hm hd
            simp only [hy, hm, hd, Bool.and_self, decide_True, if_true, getnum_fixed, hd2,
              skip_cons]
            generalize digitVal m1 * 10 + digitVal m2 = mo
            generalize digitVal d1 * 10 + digitVal d2 = da
            generalize digitVal y1 * 1000 + digitVal y2 * 100 + digitVal y3 * 10 + digitVal y4 = ye
            by_cases hmo : 1 ≤ mo ∧ mo ≤ 12
            · rw [daysIn_eq ye mo hmo.1 hmo.2]
              have h1 : ¬ (mo = 0 ∨ 12 < mo) := by omega
              rw [if_neg h1]
              simp only [ne_eq, not_true_eq_false, if_false, hmo.1, hmo.2, decide_True,
                Bool.true_and]
              by_cases hda : 1 ≤ da ∧ da ≤ daysInMonth ye mo
              · have h2 : ¬ (da < 1 ∨ da > daysInMonth ye mo) := by omega
                rw [if_neg h2]
                simp [hda.1, hda.2]
              · have h2 : da < 1 ∨ da > daysInMonth ye mo := by omega
                rw [if_pos h2]
                have h3 : ¬ ((decide (1 ≤ da) && decide (da ≤ daysInMonth ye mo)) = true) := by
                  simpa using (fun h => (not_and.mp hda) h)
                rw [if_neg h3]
            · have h1 : mo = 0 ∨ 12 < mo := by omega
              rw [if_pos h1]
              have h3 : ¬ ((decide (1 ≤ mo) && decide (mo ≤ 12) && decide (1 ≤ da) &&
                  decide (da ≤ daysInMonth ye mo)) = true) := by
                simp only [Bool.and_eq_true, decide_eq_true_eq]
                omega
              rw [if_neg h3]
          · simp [hy, hm, hd, getnum_fixed, skip_cons]
        · simp [hy, hm, hh2, getnum_fixed, skip_cons]
      · simp [hy, hm, getnum_fixed, skip_cons]
    · simp [hy, hh1, skip_cons]
  · simp [hy]

theorem parseDate_eq (s : List Char) :
    parseDate s =
      match dateFields s with
      | some (y, m, d) => if isValidDateText s then some ⟨y, m, d, 0, 0⟩ else none
      | none => none := by
  by_cases hs : ∃ y1 y2 y3 y4 h1 m1 m2 h2 d1 d2, s = [y1, y2, y3, y4, h1, m1, m2, h2, d1, d2]
  · obtain ⟨y1, y2, y3, y4, h1, m1, m2, h2, d1, d2, e⟩ := hs
    subst e
    exact parseDate_eq_ten _ _ _ _ _ _ _ _ _ _
  · have hnone : parseDate s = none := by
      cases hp : parseDate s with
      | none => rfl
      | some t =>
        obtain ⟨y1, y2, y3, y4, m1, m2, d1, d2, e⟩ := parseDate_shape s t hp
        exact absurd ⟨y1, y2, y3, y4, '-', m1, m2, '-', d1, d2, e⟩ hs
    rw [hnone]
    rcases s with _ | ⟨y1, _ | ⟨y2, _ | ⟨y3, _ | ⟨y4, _ | ⟨h1, _ | ⟨m1, _ | ⟨m2, _ | ⟨h2, _ | ⟨d1, _ | ⟨d2, _ | ⟨x, tl⟩⟩⟩⟩⟩⟩⟩⟩⟩⟩⟩
    all_goals first
      | rfl
      | exact absurd ⟨y1, y2, y3, y4, h1, m1, m2, h2, d1, d2, rfl⟩ hs

theorem char_eq_of_toNat (c d : Char) (h : c.toNat = d.toNat) : c = d := by
  rw [← Char.ofNat_toNat c, ← Char.ofNat_toNat d, h]

theorem isDigit_iff (c : Char) : isDigit c = true ↔ 48 ≤ c.toNat ∧ c.toNat ≤ 57 := by
  unfold isDigit
  simp

theorem datePoints_eq (s : String) :
    datePoints s = if isOddDayDateText s.data then 6 else 0 := by
  unfold datePoints isOddDayDateText
  rw [parseDate_eq]
  cases hf : dateFields s.data with
  | none => simp
  | some p =>
    obtain ⟨y, m, d⟩ := p
    simp only []
    by_cases hv : isValidDateText s.data = true
    · simp only [hv, if_true, Bool.true_and, decide_eq_true_eq]
      by_cases hd : d % 2 = 1
      · simp [hd]
      · have : d % 2 = 0 := by omega
        simp [this]
    · simp [hv]

theorem parseDate_none_iff (s : List Char) :
    parseDate s = none ↔ isValidDateText s = false := by
  rw [parseDate_eq]
  unfold isValidDateText
  cases hf : dateFields s with
  | none => simp
  | some p =>
    obtain ⟨y, m, d⟩ := p
    simp only [isValidDateText, hf]
    split <;> simp_all

theorem totalPoints_withDate (impl : F64 → Int) (r : Receipt) (d d0 : String) :
    totalPoints impl (r.withDate d) =
      wrap64 (totalPoints impl (r.withDate d0) + datePoints d - datePoints d0) := by
  rw [totalPoints_eq_wrap, totalPoints_eq_wrap, sub_eq_add_neg, add_assoc, wrap64_wrap64_add]
  congr 1
  simp only [exactPoints, Receipt.withDate]
  ring

theorem digitVal_le (c : Char) (h : isDigit c = true) : digitVal c ≤ 9 := by
  rw [isDigit_iff] at h
  unfold digitVal
  omega

theorem digit_eq_of_val (c d : Char) (hc : isDigit c = true) (hd : isDigit d = true)
    (h : digitVal c = digitVal d) : c = d := by
  rw [isDigit_iff] at hc hd
  unfold digitVal at h
  exact char_eq_of_toNat c d (by omega)

theorem getnum_free (a b : Char) (rest : List Char) :
    getnum (a :: b :: rest) false =
      if isDigit a then
        (if isDigit b then some (digitVal a * 10 + digitVal b, rest)
         else some (digitVal a, b :: rest))
      else none := by
  unfold getnum
  cases ha : isDigit a <;> cases hb : isDigit b <;> simp [ha, hb]

theorem getnum_free_one (a : Char) :
    getnum [a] false = if isDigit a then some (digitVal a, []) else none := by
  unfold getnum
  cases ha : isDigit a <;> simp [ha]

theorem getnum_free_ge (s rest : List Char) (hour : Nat)
    (h : getnum s false = some (hour, rest)) (hge : 10 ≤ hour) :
    ∃ a b, s = a :: b :: rest := by
  rcases s with _ | ⟨a, _ | ⟨b, tl⟩⟩
  · simp [getnum] at h
  · rw [getnum_free_one] at h
    split at h
    · rename_i ha
      simp only [Option.some.injEq, Prod.mk.injEq] at h
      have := digitVal_le a ha
      omega
    · simp at h
  · rw [getnum_free] at h
    split at h
    · rename_i ha
      split at h
      · simp only [Option.some.injEq, Prod.mk.injEq] at h
        exact ⟨a, b, by rw [h.2]⟩
      · simp only [Option.some.injEq, Prod.mk.injEq] at h
        have := digitVal_le a ha
        omega
    · simp at h

theorem parseClock_shape (s : List Char) (t : Time) (h : parseClock s = some t)
    (hge : 10 ≤ t.hour) : ∃ a b c d, s = [a, b, ':', c, d] := by
  unfold parseClock at h
  cases hH : getnum s false with
  | none => simp [hH] at h
  | some p =>
    obtain ⟨hour, rest⟩ := p
    simp only [hH] at h
    split at h
    · simp at h
    · cases hS : skip rest ':' with
      | none => simp [hS] at h
      | some rest1 =>
        simp only [hS] at h
        cases hM : getnum rest1 true with
        | none => simp [hM] at h
        | some q =>
          obtain ⟨minute, rest2⟩ := q
          simp only [hM] at h
          split at h
          · simp at h
          · split at h
            · simp at h
            · rename_i h4
              have h4 : rest2 = [] := by simpa using h4
              subst h4
              simp only [Option.some.injEq] at h
              have hh : hour = t.hour := by rw [← h]
              obtain ⟨a, b, e1⟩ := getnum_free_ge s rest hour hH (by omega)
              have e2 := skip_some rest rest1 ':' hS
              obtain ⟨c, d, e3⟩ := getnum_fixed_some rest1 [] minute hM
              exact ⟨a, b, c, d, by rw [e1, e2, e3]⟩

theorem afternoon_digits (a b : Char) :
    (isDigit a = true ∧ isDigit b = true ∧ 14 ≤ digitVal a * 10 + digitVal b ∧
        digitVal a * 10 + digitVal b < 16) ↔ (a = '1' ∧ (b = '4' ∨ b = '5')) := by
  constructor
  · rintro ⟨ha, hb, h1, h2⟩
    have ha9 := digitVal_le a ha
    have hb9 := digitVal_le b hb
    have hda : digitVal a = digitVal '1' := by
      have : digitVal '1' = 1 := by decide
      omega
    refine ⟨digit_eq_of_val a '1' ha (by decide) hda, ?_⟩
    have h1' : digitVal '1' = 1 := by decide
    have h4 : digitVal '4' = 4 := by decide
    have h5 : digitVal '5' = 5 := by decide
    by_cases hb4 : digitVal b = 4
    · left; exact digit_eq_of_val b '4' hb (by decide) (by omega)
    · right; exact digit_eq_of_val b '5' hb (by decide) (by omega)
  · rintro ⟨rfl, h | h⟩ <;> subst h <;> decide

theorem isAfternoonText_five (a b c d e : Char) :
    isAfternoonText [a, b, c, d, e] = true ↔
      (a = '1' ∧ (b = '4' ∨ b = '5')) ∧ c = ':' ∧ isDigit d = true ∧ digitVal d < 6 ∧
        isDigit e = true := by
  unfold isAfternoonText
  simp only [Bool.and_eq_true, Bool.or_eq_true, decide_eq_true_eq]
  tauto

theorem timePoints_five (a b c d e : Char) :
    (match parseClock [a, b, c, d, e] with
      | none => (0 : Int)
      | some t => if t.hour ≥ 14 ∧ t.hour < 16 then 10 else 0) =
      if isAfternoonText [a, b, c, d, e] then 10 else 0 := by
  by_cases hab : a = '1' ∧ (b = '4' ∨ b = '5')
  · have hdig := (afternoon_digits a b).mpr hab
    obtain ⟨ha, hb, h1, h2⟩ := hdig
    simp only [parseClock, getnum_free, ha, hb, if_true, skip_cons]
    have h24 : ¬ (24 ≤ digitVal a * 10 + digitVal b) := by omega
    rw [if_neg h24]
    by_cases hc : c = ':'
    · subst hc
      simp only [if_true, getnum_fixed]
      by_cases hde : (isDigit d && isDigit e) = true
      · have hde2 := hde
        simp only [Bool.and_eq_true] at hde2
        have he9 := digitVal_le e hde2.2
        simp only [hde, if_true]
        by_cases h6 : digitVal d < 6
        · have h60 : ¬ (60 ≤ digitVal d * 10 + digitVal e) := by omega
          rw [if_neg h60]
          have hR : isAfternoonText [a, b, ':', d, e] = true :=
            (isAfternoonText_five a b ':' d e).mpr ⟨hab, rfl, hde2.1, h6, hde2.2⟩
          rw [hR]
          simp [h1, h2]
        · have h60 : 60 ≤ digitVal d * 10 + digitVal e := by omega
          rw [if_pos h60]
          have hR : ¬ isAfternoonText [a, b, ':', d, e] = true :=
            fun h => h6 ((isAfternoonText_five a b ':' d e).mp h).2.2.2.1
          simp [hR]
      · have hR : ¬ isAfternoonText [a, b, ':', d, e] = true := by
          intro h
          have h' := (isAfternoonText_five a b ':' d e).mp h
          exact hde (by simp [h'.2.2.1, h'.2.2.2.2])
        simp [hde, hR]
    · have hR : ¬ isAfternoonText [a, b, c, d, e] = true :=
        fun h => hc ((isAfternoonText_five a b c d e).mp h).2.1
      simp [hc, hR]
  · have hnot : ¬ (isDigit a = true ∧ isDigit b = true ∧ 14 ≤ digitVal a * 10 + digitVal b ∧
        digitVal a * 10 + digitVal b < 16) := fun h => hab ((afternoon_digits a b).mp h)
    have hR : ¬ isAfternoonText [a, b, c, d, e] = true :=
      fun h => hab ((isAfternoonText_five a b c d e).mp h).1
    rw [if_neg hR]
    cases hp : parseClock [a, b, c, d, e] with
    | none => simp
    | some t =>
      simp only []
      by_cases ht : t.hour ≥ 14 ∧ t.hour < 16
      · exfalso
        simp only [parseClock, getnum_free] at hp
        by_cases ha : isDigit a = true
        · by_cases hb : isDigit b = true
          · simp only [ha, hb, if_true] at hp
            split at hp
            · simp at hp
            · cases hS : skip [c, d, e] ':' with
              | none => simp [hS] at hp
              | some rest1 =>
                simp only [hS] at hp
                cases hM : getnum rest1 true with
                | none => simp [hM] at hp
                | some q =>
                  obtain ⟨minute, rest2⟩ := q
                  simp only [hM] at hp
                  split at hp
                  · simp at hp
                  · split at hp
                    · simp at hp
                    · simp only [Option.some.injEq] at hp
                      have hh : t.hour = digitVal a * 10 + digitVal b := by rw [← hp]
                      exact hnot ⟨ha, hb, by omega, by omega⟩
          · have hb' : isDigit b = false := by simpa using hb
            simp only [ha, hb', if_true, Bool.false_eq_true, if_false] at hp
            have h9 := digitVal_le a ha
            split at hp
            · simp at hp
            · cases hS : skip [b, c, d, e] ':' with
              | none => simp [hS] at hp
              | some rest1 =>
                simp only [hS] at hp
                cases hM : getnum rest1 true with
                | none => simp [hM] at hp
                | some q =>
                  obtain ⟨minute, rest2⟩ := q
                  simp only [hM] at hp
                  split at hp
                  · simp at hp
                  · split at hp
                    · simp at hp
                    · simp only [Option.some.injEq] at hp
                      have hh : t.hour = digitVal a := by rw [← hp]
                      omega
        · simp [ha] at hp
      · simp [ht]

theorem timePoints_eq (s : String) :
    timePoints s = if isAfternoonText s.data then 10 else 0 := by
  unfold timePoints
  by_cases hs : ∃ a b c d e, s.data = [a, b, c, d, e]
  · obtain ⟨a, b, c, d, e, h⟩ := hs
    rw [h]
    exact timePoints_five a b c d e
  · have hR : isAfternoonText s.data = false := by
      unfold isAfternoonText
      split
      · rename_i a b c d e h
        exact absurd ⟨a, b, c, d, e, h⟩ hs
      · rfl
    rw [hR]
    cases hp : parseClock s.data with
    | none => simp
    | some t =>
      simp only []
      by_cases ht : t.hour ≥ 14 ∧ t.hour < 16
      · obtain ⟨a, b, c, d, e1⟩ := parseClock_shape _ t hp (by omega)
        exact absurd ⟨a, b, ':', c, d, e1⟩ hs
      · simp [ht]

theorem totalPoints_withTime (impl : F64 → Int) (r : Receipt) (t t0 : String) :
    totalPoints impl (r.withTime t) =
      wrap64 (totalPoints impl (r.withTime t0) + timePoints t - timePoints t0) := by
  rw [totalPoints_eq_wrap, totalPoints_eq_wrap, sub_eq_add_neg, add_assoc, wrap64_wrap64_add]
  congr 1
  simp only [exactPoints, Receipt.withTime]
  ring

/-! ## float64 against the rationals -/

theorem two_zpow_neg (e : Int) (he : e < 0) : (2 : ℚ) ^ e = 1 / (((2 ^ (-e).toNat : ℕ) : ℚ)) := by
  have h : e = -(((-e).toNat : ℕ) : Int) := by omega
  conv_lhs => rw [h]
  rw [zpow_neg, zpow_natCast]
  push_cast
  simp

theorem two_zpow_nonneg (e : Int) (he : 0 ≤ e) : (2 : ℚ) ^ e = (((2 ^ e.toNat : ℕ) : ℤ) : ℚ) := by
  have h : e = ((e.toNat : ℕ) : Int) := by omega
  conv_lhs => rw [h]
  rw [zpow_natCast]
  push_cast
  rfl

theorem truncRat_intCast (n : Int) : truncRat (n : ℚ) = n := by
  unfold truncRat
  split <;> simp

theorem truncRat_neg (q : ℚ) : truncRat (-q) = -truncRat q := by
  unfold truncRat
  by_cases h : 0 ≤ q
  · by_cases h0 : q = 0
    · subst h0; simp
    · have hlt : 0 < q := lt_of_le_of_ne h (Ne.symm h0)
      have : ¬ (0 ≤ -q) := by linarith
      rw [if_neg this, if_pos h, Int.ceil_neg]
  · have h' : q < 0 := not_le.mp h
    have : 0 ≤ -q := by linarith
    rw [if_pos this, if_neg h, Int.floor_neg]

theorem trunc_eq_truncRat (s : Bool) (m : Nat) (e : Int) :
    F64.trunc s m e = truncRat ((if s then -1 else 1) * (m : ℚ) * (2 : ℚ) ^ e) := by
  have hpos : F64.trunc false m e = truncRat ((m : ℚ) * (2 : ℚ) ^ e) := by
    unfold F64.trunc
    simp only [Bool.false_eq_true, if_false]
    by_cases he : 0 ≤ e
    · rw [if_pos he, two_zpow_nonneg e he]
      have : (m : ℚ) * (((2 ^ e.toNat : ℕ) : ℤ) : ℚ) = (((m * 2 ^ e.toNat : ℕ) : ℤ) : ℚ) := by
        push_cast; ring
      rw [this, truncRat_intCast]
    · rw [if_neg he, two_zpow_neg e (by omega)]
      have hq : (m : ℚ) * (1 / ((2 ^ (-e).toNat : ℕ) : ℚ)) = (m : ℚ) / ((2 ^ (-e).toNat : ℕ) : ℚ) := by
        ring
      rw [hq]
      unfold truncRat
      have hnn : (0 : ℚ) ≤ (m : ℚ) / ((2 ^ (-e).toNat : ℕ) : ℚ) := by positivity
      rw [if_pos hnn, Rat.floor_natCast_div_natCast]
      norm_cast
  cases s with
  | false => simpa using hpos
  | true =>
    have hneg : F64.trunc true m e = -F64.trunc false m e := by
      unfold F64.trunc
      simp
    rw [hneg, hpos, ← truncRat_neg]
    congr 1
    simp

theorem ceil_natCast_div (m d : Nat) (hd : 0 < d) :
    ⌈(m : ℚ) / (d : ℚ)⌉ = (((m + d - 1) / d : ℕ) : ℤ) := by
  rw [Int.ceil_eq_iff]
  have hdq : (0 : ℚ) < (d : ℚ) := by exact_mod_cast hd
  have h1 : d * ((m + d - 1) / d) ≤ m + d - 1 := Nat.mul_div_le _ _
  have h2 : m + d - 1 < d * ((m + d - 1) / d + 1) := Nat.lt_mul_div_succ _ hd
  generalize (m + d - 1) / d = q at h1 h2 ⊢
  have h1' : d * q + 1 ≤ m + d := by omega
  have h2' : m ≤ d * q := by
    have : m + d - 1 < d * q + d := by rw [Nat.mul_add, Nat.mul_one] at h2; exact h2
    omega
  have h1q : ((d : ℚ) * q + 1) ≤ m + d := by exact_mod_cast h1'
  have h2q : (m : ℚ) ≤ d * q := by exact_mod_cast h2'
  constructor
  · rw [lt_div_iff₀ hdq]
    push_cast
    nlinarith
  · rw [div_le_iff₀ hdq]
    push_cast
    nlinarith

theorem ceil_trunc (s : Bool) (m : Nat) (e : Int) :
    ∃ s1 m1 e1, F64.ceil (F64.fin s m e) = F64.fin s1 m1 e1 ∧
      F64.trunc s1 m1 e1 = ⌈(if s then -1 else 1) * (m : ℚ) * (2 : ℚ) ^ e⌉ := by
  simp only [F64.ceil]
  by_cases he : 0 ≤ e
  · rw [if_pos he]
    refine ⟨s, m, e, rfl, ?_⟩
    rw [trunc_eq_truncRat, two_zpow_nonneg e he]
    have : (if s = true then (-1 : ℚ) else 1) * (m : ℚ) * (((2 ^ e.toNat : ℕ) : ℤ) : ℚ)
        = (((if s = true then (-1 : ℤ) else 1) * (m : ℤ) * ((2 ^ e.toNat : ℕ) : ℤ) : ℤ) : ℚ) := by
      cases s <;> simp
    rw [this, truncRat_intCast, Int.ceil_intCast]
  · rw [if_neg he, two_zpow_neg e (by omega)]
    have hd : 0 < 2 ^ (-e).toNat := Nat.pos_pow_of_pos _ (by norm_num)
    cases s with
    | true =>
      refine ⟨true, m / 2 ^ (-e).toNat, 0, by simp, ?_⟩
      have hq : (if true = true then (-1 : ℚ) else 1) * (m : ℚ) * (1 / ((2 ^ (-e).toNat : ℕ) : ℚ))
          = -((m : ℚ) / ((2 ^ (-e).toNat : ℕ) : ℚ)) := by
        simp; ring
      rw [hq, Int.ceil_neg, Rat.floor_natCast_div_natCast]
      unfold F64.trunc
      simp
    | false =>
      refine ⟨false, (m + 2 ^ (-e).toNat - 1) / 2 ^ (-e).toNat, 0, by simp, ?_⟩
      have hq : (if false = true then (-1 : ℚ) else 1) * (m : ℚ) * (1 / ((2 ^ (-e).toNat : ℕ) : ℚ))
          = (m : ℚ) / ((2 ^ (-e).toNat : ℕ) : ℚ) := by
        simp; ring
      rw [hq, ceil_natCast_div m _ hd]
      unfold F64.trunc
      simp

theorem toInt_fin_eq (impl : F64 → Int) (s : Bool) (m : Nat) (e : Int) :
    F64.toInt impl (F64.fin s m e) =
      if -2 ^ 63 ≤ F64.trunc s m e ∧ F64.trunc s m e < 2 ^ 63 then F64.trunc s m e
      else wrap64 (impl (F64.fin s m e)) := rfl

theorem validatePrice_eq_spec (impl : F64 → Int) (t : String) :
    validatePrice impl t = specValidatePrice impl t := by
  unfold validatePrice specValidatePrice
  cases hp : ParseFloat t with
  | error err => rfl
  | ok v =>
    simp only []
    have hd : ∀ x : Int, decide (Int.tmod x 25 = 0) = decide ((25 : Int) ∣ x) := by
      intro x
      by_cases h : (25 : Int) ∣ x
      · simp [h, Int.dvd_iff_tmod_eq_zero.mp h]
      · have : ¬ Int.tmod x 25 = 0 := fun h' => h (Int.dvd_iff_tmod_eq_zero.mpr h')
        simp [h, this]
    cases hx : F64.mul v f64_100 with
    | nan => simp only [F64.toRat, F64.toInt]; exact hd _
    | inf s => simp only [F64.toRat, F64.toInt]; exact hd _
    | fin s m e =>
      simp only [F64.toRat, toInt_fin_eq, ← trunc_eq_truncRat]
      split
      · exact hd _
      · exact hd _

theorem validatePrice_error (impl : F64 → Int) (t : String) (err : NumError)
    (h : ParseFloat t = Except.error err) : validatePrice impl t = false := by
  unfold validatePrice
  rw [h]

theorem validateDesc_eq_spec (impl : F64 → Int) (item : Item) :
    validateDesc impl item = specValidateDesc impl item := by
  unfold validateDesc specValidateDesc specPriceBonus
  simp only []
  split
  · cases hp : ParseFloat item.Price with
    | error err => rfl
    | ok v =>
      simp only []
      cases hx : F64.mul v f64_0_2 with
      | nan => simp only [F64.toRat, F64.ceil, F64.toInt]
      | inf s => simp only [F64.toRat, F64.ceil, F64.toInt]
      | fin s m e =>
        obtain ⟨s1, m1, e1, hc, ht⟩ := ceil_trunc s m e
        simp only [F64.toRat]
        rw [hc, toInt_fin_eq, ht]
  · rfl

theorem trimSpace_of_all_space (s : List Char) (h : s.all isSpace = true) : TrimSpace s = [] := by
  unfold TrimSpace
  have : s.dropWhile isSpace = [] := by
    rw [List.dropWhile_eq_nil_iff]
    intro x hx
    exact List.all_eq_true.mp h x hx
  rw [this]
  rfl

theorem validateDesc_blank (impl : F64 → Int) (item : Item)
    (h : item.ShortDescription.data.all isSpace = true) :
    validateDesc impl item = specPriceBonus impl item.Price := by
  rw [validateDesc_eq_spec]
  unfold specValidateDesc
  rw [trimSpace_of_all_space _ h]
  rfl

/-! ## C1 -/

set_option maxRecDepth 1000000 in
/-- C1 (counterexample): a receipt whose single item has the description
`abc` and the price `-100.00` scores -20, so the total is not always
non-negative. -/
theorem totalPoints_negativePrice :
    totalPoints implAmd64 negativePriceReceipt = -20 ∧
      totalPoints implArm64 negativePriceReceipt = -20 := by
  decide!

/-- C1 (amended): when every item's price either fails to parse or parses to a
non-negative finite number whose fifth, rounded up, fits the 64-bit `int`, and
the seven contributions sum to less than `2^63`, the total is non-negative (and
is that sum). -/
theorem totalPoints_nonneg_of_priceNonNeg (impl : F64 → Int) (r : Receipt)
    (hprice : ∀ item ∈ r.Items, priceNonNeg item = true)
    (hsum : exactPoints impl r < 2 ^ 63) :
    0 ≤ totalPoints impl r ∧ totalPoints impl r = exactPoints impl r := by
  have hdesc : 0 ≤ descPoints impl r.Items := by
    unfold descPoints
    apply List.sum_nonneg
    intro x hx
    obtain ⟨item, hmem, rfl⟩ := List.mem_map.mp hx
    exact validateDesc_nonneg impl item (hprice item hmem)
  obtain ⟨h1, h2, h3, h4, h5, h6⟩ := contributions_nonneg impl r
  have hnn : 0 ≤ exactPoints impl r := by
    unfold exactPoints
    omega
  have heq : totalPoints impl r = exactPoints impl r := by
    rw [totalPoints_eq_wrap]
    exact wrap64_of_range _ (by norm_num; omega) hsum
  exact ⟨heq ▸ hnn, heq⟩

set_option maxRecDepth 1000000 in
/-- C1 (witness): scenario B satisfies the two conditions. -/
theorem totalPoints_nonneg_witness :
    (∀ item ∈ scenarioB.Items, priceNonNeg item = true) ∧
      exactPoints implAmd64 scenarioB < 2 ^ 63 ∧
      (0 ≤ totalPoints implAmd64 scenarioB ∧
        totalPoints implAmd64 scenarioB = exactPoints implAmd64 scenarioB) :=
  ⟨by decide!, by decide!,
    totalPoints_nonneg_of_priceNonNeg implAmd64 scenarioB (by decide!) (by decide!)⟩

/-! ## C2, C3 -/

set_option maxRecDepth 1000000 in
/-- C2: the receipt of scenario A scores exactly 28. -/
theorem totalPoints_scenarioA (impl : F64 → Int) : totalPoints impl scenarioA = 28 := rfl

set_option maxRecDepth 1000000 in
/-- C3: the receipt of scenario B scores exactly 109. -/
theorem totalPoints_scenarioB (impl : F64 → Int) : totalPoints impl scenarioB = 109 := rfl

/-! ## C4 -/

set_option maxRecDepth 1000000 in
/-- C4 (counterexample): with `saturatingItems` the empty retailer name scores
`2^63 - 1`, and the retailer name `A`, which has one alphanumeric character,
scores `-2^63`: the difference is not 1. -/
theorem retailer_rule_overflow :
    totalPoints implAmd64 (saturatedReceipt.withRetailer "") = 9223372036854775807 ∧
      totalPoints implAmd64 (saturatedReceipt.withRetailer "A") = -9223372036854775808 ∧
      (("A".data.filter isAsciiLetterOrDigit).length : Int) = 1 ∧
      totalPoints implAmd64 (saturatedReceipt.withRetailer "A") -
        totalPoints implAmd64 (saturatedReceipt.withRetailer "") ≠ 1 := by
  decide!

/-- C4 (amended): `isAlphaNumeric` is true exactly for the ASCII letters and
digits, and the total of a receipt is the total of the same receipt with the
empty retailer name plus the number of such characters of the retailer name,
the sum being reduced to the 64-bit `int` (`wrap64`; it is the exact sum
whenever that is below `2^63`). -/
theorem retailer_rule (impl : F64 → Int) (r : Receipt) :
    (∀ c : Char, isAlphaNumeric c = isAsciiLetterOrDigit c) ∧
      totalPoints impl r =
        wrap64 (totalPoints impl (r.withRetailer "") +
          ((r.Retailer.data.filter isAsciiLetterOrDigit).length : Int)) := by
  refine ⟨isAlphaNumeric_eq, ?_⟩
  have hfun : isAsciiLetterOrDigit = isAlphaNumeric := by
    funext c
    exact (isAlphaNumeric_eq c).symm
  rw [hfun, totalPoints_eq_wrap, totalPoints_eq_wrap, wrap64_wrap64_add]
  congr 1
  have h0 : retailerPoints "" = 0 := by decide
  simp only [exactPoints, Receipt.withRetailer, retailerPoints] at h0 ⊢
  rw [h0]
  ring

/-! ## C5 -/

set_option maxRecDepth 1000000 in
/-- C5 (counterexample): with `saturatingItems` the total `abc` (no suffix
`.00`, not a number) scores `2^63 - 1`, and the total `abc.00` scores
`-2^63 + 49`: the round-dollar rule did not make the score 50 larger. -/
theorem dollar_rule_overflow :
    totalPoints implAmd64 (saturatedReceipt.withTotal "abc") = 9223372036854775807 ∧
      totalPoints implAmd64 (saturatedReceipt.withTotal "abc.00") = -9223372036854775759 ∧
      validateDollar "abc.00" = true ∧ validateDollar "abc" = false ∧
      totalPoints implAmd64 (saturatedReceipt.withTotal "abc.00") -
        totalPoints implAmd64 (saturatedReceipt.withTotal "abc") ≠ 50 := by
  decide!

/-- C5 (amended): `validateDollar t` holds exactly when the last three
characters of the text `t` are `.00`, whatever `t` is otherwise; the total of a
receipt with the total text `t` is the total of the same receipt with the empty
total text, plus 50 exactly in that case, plus the 25 points of the quarter
rule, the sum being reduced to the 64-bit `int`.  `abc.00` earns the 50 points,
`9` and `9.0` do not. -/
theorem dollar_rule (impl : F64 → Int) (r : Receipt) (t : String) :
    (validateDollar t = true ↔ lastThree t.data = ['.', '0', '0']) ∧
      totalPoints impl (r.withTotal t) =
        wrap64 (totalPoints impl (r.withTotal "") +
          (if lastThree t.data = ['.', '0', '0'] then 50 else 0) + pricePoints impl t) ∧
      validateDollar "abc.00" = true ∧ validateDollar "9" = false ∧
      validateDollar "9.0" = false := by
  have hiff : validateDollar t = true ↔ lastThree t.data = ['.', '0', '0'] := by
    have hs : validateDollar t = true ↔ ['.', '0', '0'] <:+ t.data := by
      unfold validateDollar HasSuffix
      rw [← List.isSuffixOf_iff_suffix]
      have hd : ".00".data = ['.', '0', '0'] := rfl
      rw [hd]
      cases List.isSuffixOf ['.', '0', '0'] t.data <;> simp
    rw [hs, List.suffix_iff_eq_drop]
    unfold lastThree
    simp only [List.length_cons, List.length_nil]
    exact eq_comm
  refine ⟨hiff, ?_, by decide, by decide, by decide⟩
  rw [totalPoints_withTotal]
  congr 3
  unfold dollarPoints
  by_cases h : validateDollar t = true
  · rw [if_pos h, if_pos (hiff.mp h)]
  · rw [if_neg h, if_neg (fun hp => h (hiff.mpr hp))]

/-! ## C7 -/

set_option maxRecDepth 1000000 in
/-- C7 (counterexample): for the retailer `A` with `saturatingItems` the total
is `-2^63`, while the total without items (1), the pair points (5) and the two
item bonuses add up to `2^63`. -/
theorem item_rules_overflow :
    totalPoints implAmd64 (Receipt.mk "A" "" "" saturatingItems "") = -9223372036854775808 ∧
      totalPoints implAmd64 (Receipt.mk "A" "" "" [] "") = 1 ∧
      5 * ((saturatingItems.length : Int) / 2) = 5 ∧
      (saturatingItems.map (validateDesc implAmd64)).sum = 9223372036854775802 ∧
      totalPoints implAmd64 (Receipt.mk "A" "" "" saturatingItems "") ≠
        totalPoints implAmd64 (Receipt.mk "A" "" "" [] "") +
          5 * ((saturatingItems.length : Int) / 2) +
          (saturatingItems.map (validateDesc implAmd64)).sum := by
  decide!

/-- C7 (amended): the total of a receipt with `n` items is the total of the
same receipt without items, plus `5 * floor(n / 2)`, plus the sum of
`validateDesc` over the items, the sum being reduced to the 64-bit `int`
(`wrap64`; it is the exact sum whenever that lies in the `int` range).  The
pair points are 0 for 0 or 1 items, 5 for 2 or 3, 10 for 4 or 5. -/
theorem item_rules (impl : F64 → Int) (r : Receipt) :
    totalPoints impl r =
        wrap64 (totalPoints impl (r.withItems []) + 5 * ((r.Items.length : Int) / 2) +
          (r.Items.map (validateDesc impl)).sum) ∧
      (List.range 6).map (fun n => pairPoints (List.replicate n (Item.mk "" ""))) =
        [0, 0, 5, 5, 10, 10] := by
  refine ⟨?_, by decide⟩
  rw [totalPoints_eq_wrap, totalPoints_eq_wrap, add_assoc, wrap64_wrap64_add]
  congr 1
  simp only [exactPoints, Receipt.withItems, pairPoints, descPoints, List.length_nil,
    List.map_nil, List.sum_nil]
  norm_num
  ring

/-! ## C6 -/

set_option maxRecDepth 1000000 in
/-- C6 (counterexample): (1) with `saturatingItems` the total `n/a` scores
`2^63 - 1` and the total `0.25` scores `-2^63 + 24`, so the quarter rule did
not make the score 25 larger; (2) the total `295147905179352825856` (`2^68`)
parses, its product with 100 truncates to `29514790517935282585600`, which is
divisible by 25, yet `validatePrice` is false on x86-64 and on arm64, where
`int()` of a value outside the `int` range is not the truncation. -/
theorem price_rule_overflow_and_range :
    (totalPoints implAmd64 (saturatedReceipt.withTotal "n/a") = 9223372036854775807 ∧
      totalPoints implAmd64 (saturatedReceipt.withTotal "0.25") = -9223372036854775784 ∧
      validatePrice implAmd64 "0.25" = true ∧ validatePrice implAmd64 "n/a" = false ∧
      totalPoints implAmd64 (saturatedReceipt.withTotal "0.25") -
        totalPoints implAmd64 (saturatedReceipt.withTotal "n/a") ≠ 25) ∧
    (exactCents "295147905179352825856" = some 29514790517935282585600 ∧
      (25 : Int) ∣ 29514790517935282585600 ∧
      validatePrice implAmd64 "295147905179352825856" = false ∧
      validatePrice implArm64 "295147905179352825856" = false) := by
  decide!

/-- C6 (amended): `validatePrice t` is true exactly when `t` parses as a number
`v` and the float64 product `v * 100`, truncated toward zero, is divisible by
25, the truncation being taken when the product is finite and its integer part
fits the 64-bit `int` (otherwise the platform's out-of-range conversion is
tested); when `t` does not parse `validatePrice t` is false; and the total of a
receipt with the total text `t` is the total with the empty total text, plus
the round-dollar points, plus 25 exactly in that case, the sum being reduced to
the 64-bit `int`. -/
theorem price_rule (impl : F64 → Int) (r : Receipt) (t : String) :
    validatePrice impl t = specValidatePrice impl t ∧
      (∀ err : NumError, ParseFloat t = Except.error err → validatePrice impl t = false) ∧
      totalPoints impl (r.withTotal t) =
        wrap64 (totalPoints impl (r.withTotal "") + dollarPoints t +
          (if specValidatePrice impl t then 25 else 0)) := by
  refine ⟨validatePrice_eq_spec impl t, fun err h => validatePrice_error impl t err h, ?_⟩
  rw [totalPoints_withTotal, ← validatePrice_eq_spec]
  rfl

set_option maxRecDepth 1000000 in
/-- C6 (witness): the total `abc` does not parse, and the rule gives nothing. -/
theorem price_rule_witness :
    ParseFloat "abc" = Except.error NumError.malformed ∧
      validatePrice implAmd64 "abc" = false :=
  ⟨rfl, (price_rule implAmd64 scenarioA "abc").2.1 NumError.malformed rfl⟩

/-! ## C8 -/

set_option maxRecDepth 1000000 in
/-- C8 (counterexample): for the description `abc` and the price `1e300` the
ceiling of `price * 0.2` is about `2 * 10^299`; `validateDesc` returns
`-2^63` on x86-64 and `2^63 - 1` on arm64.  For the price `NaN`, which
`ParseFloat` accepts, it returns `-2^63` on x86-64. -/
theorem desc_rule_out_of_range :
    exactCeilFifth "1e300" = some 200000000000000010500952051040884049740893716221631830983170823102360491597781639157274275016089572808740888766576775635388504647072086115128958436957341396569677440185315160747566046758957618011873790646994159989016223807793528176014930548556028498915851757764011368567623133894439277373091880108032 ∧
      validateDesc implAmd64 ⟨"abc", "1e300"⟩ = -9223372036854775808 ∧
      validateDesc implArm64 ⟨"abc", "1e300"⟩ = 9223372036854775807 ∧
      validateDesc implAmd64 ⟨"abc", "NaN"⟩ = -9223372036854775808 ∧
      some (validateDesc implAmd64 ⟨"abc", "1e300"⟩) ≠ exactCeilFifth "1e300" ∧
      some (validateDesc implArm64 ⟨"abc", "1e300"⟩) ≠ exactCeilFifth "1e300" := by
  decide!

/-- C8 (amended): `validateDesc item` is 0 when the byte length of the trimmed
description is not a multiple of 3, is 0 when the price does not parse, and
otherwise is the ceiling of the float64 product `price * 0.2` whenever that
product is finite and its ceiling fits the 64-bit `int` (for NaN, an infinity
or a larger product it is the platform's out-of-range conversion); a
description that is empty or all white space has trimmed length 0 and receives
the price bonus. -/
theorem desc_rule (impl : F64 → Int) (item : Item) :
    validateDesc impl item = specValidateDesc impl item ∧
      (item.ShortDescription.data.all isSpace = true →
        validateDesc impl item = specPriceBonus impl item.Price) :=
  ⟨validateDesc_eq_spec impl item, validateDesc_blank impl item⟩

set_option maxRecDepth 1000000 in
/-- C8 (witness): a description of three blanks with the price `4.00` earns
the bonus 1. -/
theorem desc_rule_witness :
    "   ".data.all isSpace = true ∧
      validateDesc implAmd64 ⟨"   ", "4.00"⟩ = 1 ∧
      validateDesc implAmd64 ⟨"   ", "4.00"⟩ = specPriceBonus implAmd64 "4.00" :=
  ⟨by decide, by decide!, (desc_rule implAmd64 ⟨"   ", "4.00"⟩).2 (by decide)⟩

/-! ## C9 -/

set_option maxRecDepth 1000000 in
/-- C9 (counterexample): with `saturatingItems` an unparseable date scores
`2^63 - 1` and the date `2022-01-01` (odd day) scores `-2^63 + 5`: the total is
not larger by 6. -/
theorem date_rule_overflow :
    totalPoints implAmd64 (saturatedReceipt.withDate "not a date") = 9223372036854775807 ∧
      totalPoints implAmd64 (saturatedReceipt.withDate "2022-01-01") = -9223372036854775803 ∧
      isOddDayDateText "2022-01-01".data = true ∧ parseDate "not a date".data = none ∧
      totalPoints implAmd64 (saturatedReceipt.withDate "2022-01-01") -
        totalPoints implAmd64 (saturatedReceipt.withDate "not a date") ≠ 6 := by
  decide!

/-- C9 (amended): compared with the same receipt carrying an unparseable
purchase date `bad`, the total is that total plus 6 in the 64-bit `int`
addition (`add64`: larger by exactly 6 unless the sum passes `2^63 - 1`) when
the purchase date is a valid `YYYY-MM-DD` calendar date with an odd day, and is
equal to it otherwise (even day, or a date that does not parse).  `time.Parse`
fails exactly on the texts that are not a valid calendar date. -/
theorem date_rule (impl : F64 → Int) (r : Receipt) (bad : String)
    (hbad : isValidDateText bad.data = false) :
    totalPoints impl r =
        (if isOddDayDateText r.PurchaseDate.data then add64 (totalPoints impl (r.withDate bad)) 6
         else totalPoints impl (r.withDate bad)) ∧
      (∀ s : String, parseDate s.data = none ↔ isValidDateText s.data = false) ∧
      isValidDateText "2022-1-1".data = false ∧ isValidDateText "2022-13-01".data = false ∧
      isValidDateText "2022-02-30".data = false := by
  refine ⟨?_, fun s => parseDate_none_iff s.data, by decide, by decide, by decide⟩
  have hb : datePoints bad = 0 := by
    rw [datePoints_eq]
    have : isOddDayDateText bad.data = false := by
      unfold isOddDayDateText
      cases dateFields bad.data with
      | none => rfl
      | some p => simp [hbad]
    rw [this]
    rfl
  have h := totalPoints_withDate impl r r.PurchaseDate bad
  have hr : r.withDate r.PurchaseDate = r := rfl
  rw [hr, hb, sub_zero, datePoints_eq] at h
  rw [h]
  split
  · rfl
  · rw [add_zero, totalPoints_eq_wrap, wrap64_idem]

set_option maxRecDepth 1000000 in
/-- C9 (witness): scenario A (date `2022-01-01`) against the unparseable date
`2022-1-1`. -/
theorem date_rule_witness :
    isValidDateText "2022-1-1".data = false ∧
      totalPoints implAmd64 scenarioA =
        add64 (totalPoints implAmd64 (scenarioA.withDate "2022-1-1")) 6 :=
  ⟨by decide, (date_rule implAmd64 scenarioA "2022-1-1" (by decide)).1⟩

/-! ## C10 -/

set_option maxRecDepth 1000000 in
/-- C10 (counterexample): with `saturatingItems` the time `13:59` scores
`2^63 - 1` and the time `14:00` scores `-2^63 + 9`: the afternoon rule did not
make the score 10 larger. -/
theorem time_rule_overflow :
    totalPoints implAmd64 (saturatedReceipt.withTime "13:59") = 9223372036854775807 ∧
      totalPoints implAmd64 (saturatedReceipt.withTime "14:00") = -9223372036854775799 ∧
      totalPoints implAmd64 (saturatedReceipt.withTime "14:00") -
        totalPoints implAmd64 (saturatedReceipt.withTime "13:59") ≠ 10 := by
  decide!

/-- C10 (amended): the total of a receipt is the total of the same receipt
with the empty purchase time plus 10 in the 64-bit `int` addition (`add64`:
exactly 10 more unless the sum passes `2^63 - 1`) when the purchase time is
`14:MM` or `15:MM` with `MM` in `00..59`, that is when `time.Parse` succeeds
with `14 <= hour < 16`; and it is equal to that total otherwise, also when the
time does not parse.  `14:00` and `15:59` qualify, `13:59` and `16:00` do not. -/
theorem time_rule (impl : F64 → Int) (r : Receipt) :
    totalPoints impl r =
        (if isAfternoonText r.PurchaseTime.data then add64 (totalPoints impl (r.withTime "")) 10
         else totalPoints impl (r.withTime "")) ∧
      (∀ s : String, isAfternoonText s.data = true ↔
        ∃ t, parseClock s.data = some t ∧ 14 ≤ t.hour ∧ t.hour < 16) ∧
      isAfternoonText "14:00".data = true ∧ isAfternoonText "15:59".data = true ∧
      isAfternoonText "13:59".data = false ∧ isAfternoonText "16:00".data = false := by
  refine ⟨?_, ?_, by decide, by decide, by decide, by decide⟩
  · have h0 : timePoints "" = 0 := by decide
    have h := totalPoints_withTime impl r r.PurchaseTime ""
    have hr : r.withTime r.PurchaseTime = r := rfl
    rw [hr, h0, sub_zero, timePoints_eq] at h
    rw [h]
    split
    · rfl
    · rw [add_zero, totalPoints_eq_wrap, wrap64_idem]
  · intro s
    have h := timePoints_eq s
    unfold timePoints at h
    constructor
    · intro ha
      rw [ha] at h
      cases hp : parseClock s.data with
      | none => rw [hp] at h; simp at h
      | some t =>
        rw [hp] at h
        simp only [if_true] at h
        by_cases ht : t.hour ≥ 14 ∧ t.hour < 16
        · exact ⟨t, rfl, ht.1, ht.2⟩
        · rw [if_neg ht] at h
          simp at h
    · rintro ⟨t, hp, h1, h2⟩
      rw [hp] at h
      simp only [] at h
      rw [if_pos ⟨h1, h2⟩] at h
      by_cases ha : isAfternoonText s.data = true
      · exact ha
      · rw [if_neg ha] at h
        simp at h

/-! ## The handlers and the store -/

theorem Split_of_not_mem (s : List Char) (sep : Char) (h : sep ∉ s) : Split s sep = [s] := by
  induction s with
  | nil => rfl
  | cons c cs ih =>
    have hc : ¬ c = sep := fun e => h (by rw [e]; exact List.mem_cons_self _ _)
    have hcs : sep ∉ cs := fun m => h (List.mem_cons_of_mem _ m)
    simp only [Split, hc, if_false, ih hcs]

theorem Split_append (a b : List Char) (sep : Char) (h : sep ∉ a) :
    Split (a ++ sep :: b) sep = a :: Split b sep := by
  induction a with
  | nil => simp [Split]
  | cons c cs ih =>
    have hc : ¬ c = sep := fun e => h (by rw [e]; exact List.mem_cons_self _ _)
    have hcs : sep ∉ cs := fun m => h (List.mem_cons_of_mem _ m)
    have e : Split ((c :: cs) ++ sep :: b) sep =
        match Split (cs ++ sep :: b) sep with
        | seg :: rest => (c :: seg) :: rest
        | [] => [[c]] := by
      simp only [List.cons_append, Split, hc, if_false]
      rfl
    rw [e, ih hcs]

theorem Split_pointsPath (id : String) (h : '/' ∉ id.data) :
    Split (pointsPath id).data '/' = [[], "receipts".data, id.data, "points".data] := by
  have hd : (pointsPath id).data =
      [] ++ '/' :: ("receipts".data ++ '/' :: (id.data ++ '/' :: "points".data)) := by
    unfold pointsPath
    simp [String.data_append]
  rw [hd, Split_append _ _ _ (by simp), Split_append _ _ _ (by decide), Split_append _ _ _ h,
    Split_of_not_mem _ _ (by decide)]

theorem not_slash_of_isUUIDText (s : List Char) (h : isUUIDText s = true) : '/' ∉ s := by
  unfold isUUIDText at h
  simp only [Bool.and_eq_true] at h
  intro hm
  have := List.all_eq_true.mp h.1.2 '/' hm
  revert this
  decide

theorem getPoints_pointsPath (store : Store) (id method : String) (body : Except String Receipt)
    (h : '/' ∉ id.data) :
    getPoints store ⟨method, pointsPath id, body⟩ =
      match store id with
      | none => (store, ⟨404, Payload.text "Receipt not found"⟩)
      | some points => (store, ⟨200, Payload.points points⟩) := by
  unfold getPoints
  simp only [Split_pointsPath id h]
  rfl

theorem getPoints_store (store : Store) (r : Request) : (getPoints store r).1 = store := by
  unfold getPoints
  simp only []
  split
  · rfl
  · split
    · rfl
    · split <;> rfl

theorem processReceipt_wrong_method (impl : F64 → Int) (store : Store) (r : Request)
    (uuid : String) (h : r.Method ≠ "POST") :
    processReceipt impl store r uuid = (store, ⟨405, Payload.text "Only POST method is allowed"⟩) := by
  unfold processReceipt
  rw [if_pos h]

theorem processReceipt_ok (impl : F64 → Int) (store : Store) (r : Request) (uuid : String)
    (receipt : Receipt) (hm : r.Method = "POST") (hb : r.Body = Except.ok receipt) :
    processReceipt impl store r uuid =
      (store.insert uuid (totalPoints impl receipt), ⟨200, Payload.id uuid⟩) := by
  unfold processReceipt
  rw [if_neg (by simp [hm]), hb]

theorem Store.insert_same (m : Store) (k : String) (v : Int) : (m.insert k v) k = some v := by
  unfold Store.insert
  simp

theorem Store.insert_other (m : Store) (k k1 : String) (v : Int) (h : k1 ≠ k) :
    (m.insert k v) k1 = m k1 := by
  unfold Store.insert
  simp [h]

/-! ## C11 -/

/-- C11: after `processReceipt` has handled a POST request with a decoded
receipt and stored the score under the minted identifier `uuid`, `getPoints`
on the path `/receipts/{uuid}/points` answers 200 with exactly
`totalPoints receipt`; and for every points value `p`, looking up an
identifier just stored with `p` returns `p`. -/
theorem store_round_trip (impl : F64 → Int) (store : Store) (receipt : Receipt)
    (uuid path method : String) (body : Except String Receipt)
    (hid : isUUIDText uuid.data = true) :
    (processReceipt impl store ⟨"POST", path, Except.ok receipt⟩ uuid).2 =
        ⟨200, Payload.id uuid⟩ ∧
      (getPoints (processReceipt impl store ⟨"POST", path, Except.ok receipt⟩ uuid).1
          ⟨method, pointsPath uuid, body⟩).2 =
        ⟨200, Payload.points (totalPoints impl receipt)⟩ ∧
      (∀ p : Int, (getPoints (store.insert uuid p) ⟨method, pointsPath uuid, body⟩).2 =
        ⟨200, Payload.points p⟩) := by
  have hs := not_slash_of_isUUIDText uuid.data hid
  have hp := processReceipt_ok impl store ⟨"POST", path, Except.ok receipt⟩ uuid receipt rfl rfl
  refine ⟨by rw [hp], ?_, ?_⟩
  · rw [hp, getPoints_pointsPath _ _ _ _ hs]
    simp only [Store.insert_same]
  · intro p
    rw [getPoints_pointsPath _ _ _ _ hs]
    simp only [Store.insert_same]

set_option maxRecDepth 1000000 in
/-- C11 (witness): scenario A stored under a sample UUID is read back. -/
theorem store_round_trip_witness :
    isUUIDText sampleUUID.data = true ∧
      (getPoints (processReceipt implAmd64 Store.empty
          ⟨"POST", "/receipts/process", Except.ok scenarioA⟩ sampleUUID).1
          ⟨"GET", pointsPath sampleUUID, Except.error ""⟩).2 =
        ⟨200, Payload.points (totalPoints implAmd64 scenarioA)⟩ :=
  ⟨by decide!,
    (store_round_trip implAmd64 Store.empty scenarioA sampleUUID "/receipts/process" "GET"
      (Except.error "") (by decide!)).2.1⟩

/-! ## C12 -/

/-- C12: when the request path reaches the lookup (at least four segments, the
fourth being `points`) and its third segment is not a key of the store,
`getPoints` answers 404 with the text `Receipt not found`, returns no points,
and leaves the store as it was. -/
theorem unknown_identifier (store : Store) (r : Request)
    (hlen : 4 ≤ (Split r.Path.data '/').length)
    (hpoints : (Split r.Path.data '/').getD 3 [] = "points".data)
    (hmiss : store (String.mk ((Split r.Path.data '/').getD 2 [])) = none) :
    getPoints store r = (store, ⟨404, Payload.text "Receipt not found"⟩) := by
  unfold getPoints
  simp only []
  rw [if_neg (by omega), if_neg (fun h => h hpoints), hmiss]

/-- C12 (witness): the identifier `abd` is not a key of the sample store. -/
theorem unknown_identifier_witness :
    4 ≤ (Split "/receipts/abd/points".data '/').length ∧
      (Split "/receipts/abd/points".data '/').getD 3 [] = "points".data ∧
      sampleStore (String.mk ((Split "/receipts/abd/points".data '/').getD 2 [])) = none ∧
      getPoints sampleStore ⟨"GET", "/receipts/abd/points", Except.error ""⟩ =
        (sampleStore, ⟨404, Payload.text "Receipt not found"⟩) :=
  ⟨by decide, by decide, by decide,
    unknown_identifier sampleStore ⟨"GET", "/receipts/abd/points", Except.error ""⟩
      (by decide) (by decide) (by decide)⟩

/-! ## C13 -/

/-- C13: when the minted identifier `uuid` is not yet a key, `processReceipt`
leaves every stored identifier mapped to the same points, changes the store at
no other identifier than `uuid`, adds the entry `(uuid, totalPoints receipt)`
when the request is a POST with a decoded receipt and adds nothing otherwise;
`getPoints` never changes the store. -/
theorem write_once (impl : F64 → Int) (store : Store) (r q : Request) (uuid : String)
    (hfresh : store uuid = none) :
    (∀ k p, store k = some p → (processReceipt impl store r uuid).1 k = some p) ∧
      (∀ k, k ≠ uuid → (processReceipt impl store r uuid).1 k = store k) ∧
      (∀ receipt, r.Method = "POST" → r.Body = Except.ok receipt →
        (processReceipt impl store r uuid).1 uuid = some (totalPoints impl receipt)) ∧
      ((r.Method ≠ "POST" ∨ ∃ err, r.Body = Except.error err) →
        (processReceipt impl store r uuid).1 = store) ∧
      (getPoints store q).1 = store := by
  have hother : ∀ k, k ≠ uuid → (processReceipt impl store r uuid).1 k = store k := by
    intro k hk
    unfold processReceipt
    split
    · rfl
    · split
      · rfl
      · exact Store.insert_other _ _ _ _ hk
  refine ⟨?_, hother, ?_, ?_, getPoints_store store q⟩
  · intro k p hkp
    have hk : k ≠ uuid := by
      intro e
      rw [e, hfresh] at hkp
      exact absurd hkp (by simp)
    rw [hother k hk, hkp]
  · intro receipt hm hb
    rw [processReceipt_ok impl store r uuid receipt hm hb]
    exact Store.insert_same _ _ _
  · rintro (hm | ⟨err, hb⟩)
    · rw [processReceipt_wrong_method impl store r uuid hm]
    · unfold processReceipt
      split
      · rfl
      · rw [hb]

/-- C13 (witness): the sample store keeps `abc -> 42` when scenario B is
processed under a sample UUID. -/
theorem write_once_witness :
    sampleStore sampleUUID = none ∧
      (processReceipt implAmd64 sampleStore
        ⟨"POST", "/receipts/process", Except.ok scenarioB⟩ sampleUUID).1 "abc" = some 42 :=
  ⟨by decide,
    (write_once implAmd64 sampleStore ⟨"POST", "/receipts/process", Except.ok scenarioB⟩
      ⟨"GET", "/receipts/abc/points", Except.error ""⟩ sampleUUID (by decide)).1 "abc" 42
      (by decide)⟩

/-! ## C15, C16 -/

/-- C15 (code at the failing input): `getPoints` does not look at the method;
a DELETE request for a known identifier is answered 200 with the points. -/
theorem getPoints_ignores_method :
    (getPoints sampleStore ⟨"DELETE", "/receipts/abc/points", Except.error ""⟩).2 =
      ⟨200, Payload.points 42⟩ := by
  decide

/-- C16 (code at the failing input): a path with a segment after `points` is
answered 200 with the points of the third segment. -/
theorem getPoints_extra_segment :
    (getPoints sampleStore ⟨"GET", "/receipts/abc/points/extra", Except.error ""⟩).2 =
        ⟨200, Payload.points 42⟩ ∧
      (getPoints sampleStore ⟨"GET", "/receipts/abc/points/", Except.error ""⟩).2 =
        ⟨200, Payload.points 42⟩ := by
  decide

/-- The part of the path check that the code does make: fewer than four
segments, or a fourth segment other than `points`, is answered 400. -/
theorem getPoints_bad_path (store : Store) (r : Request)
    (h : (Split r.Path.data '/').length < 4 ∨ (Split r.Path.data '/').getD 3 [] ≠ "points".data) :
    getPoints store r = (store, ⟨400, Payload.text "Invalid request path"⟩) := by
  unfold getPoints
  simp only []
  split
  · rfl
  · rcases h with h | h
    · omega
    · rw [if_pos h]

/-! ## C17 -/

set_option maxRecDepth 1000000 in
/-- C17 (code at the failing input): the total `2.01` is 201 cents, not a
multiple of 25, but the float64 product `2.01 * 100` is 200.99999999999997,
`int` truncates it to 200, and `validatePrice` is true; the same happens for
`2.26` and `2.51`. -/
theorem validatePrice_2_01 :
    exactCents "2.01" = some 200 ∧ validatePrice implAmd64 "2.01" = true ∧
      validatePrice implArm64 "2.01" = true ∧ validatePrice implAmd64 "2.26" = true ∧
      validatePrice implAmd64 "2.51" = true ∧ ¬ ((25 : Int) ∣ 201) := by
  decide!

/-! ## C19 -/

/-- C19: the total does not depend on the order of the items. -/
theorem totalPoints_perm (impl : F64 → Int) (r : Receipt) (items : List Item)
    (h : List.Perm r.Items items) :
    totalPoints impl (r.withItems items) = totalPoints impl r := by
  rw [totalPoints_eq_wrap, totalPoints_eq_wrap]
  congr 1
  simp only [exactPoints, Receipt.withItems, pairPoints, descPoints]
  rw [h.length_eq, (h.map (validateDesc impl)).sum_eq]

/-- C19 (witness): scenario A with its items in reverse order. -/
theorem totalPoints_perm_witness :
    List.Perm scenarioA.Items scenarioA.Items.reverse ∧
      totalPoints implAmd64 (scenarioA.withItems scenarioA.Items.reverse) =
        totalPoints implAmd64 scenarioA :=
  ⟨(List.reverse_perm _).symm,
    totalPoints_perm implAmd64 scenarioA scenarioA.Items.reverse (List.reverse_perm _).symm⟩

/-! ## C20 -/

set_option maxRecDepth 1000000 in
/-- C20 (counterexample): two items with the description `abc` and the
positive price `46116860184273870000` have the bonus `2^63 - 1024` each; the
receipt scores -2043, below 0 and below the 5 points of its pair. -/
theorem totalPoints_overflow_negative :
    (overflowingReceipt.Items.map (validateDesc implAmd64)) =
        [9223372036854774784, 9223372036854774784] ∧
      (overflowingReceipt.Items.map priceNonNeg) = [true, true] ∧
      totalPoints implAmd64 overflowingReceipt = -2043 ∧
      totalPoints implArm64 overflowingReceipt = -2043 ∧
      ¬ (0 ≤ totalPoints implAmd64 overflowingReceipt) ∧
      ¬ (5 * ((overflowingReceipt.Items.length : Int) / 2) ≤
        totalPoints implAmd64 overflowingReceipt) := by
  decide!

/-- C20 (amended): when every item's price either fails to parse or parses to
a non-negative finite number whose fifth, rounded up, fits the 64-bit `int`,
and the seven contributions sum to less than `2^63`, every contribution is
non-negative, and the total is at least `5 * floor(n / 2)` and at most that
amount plus the number of characters of the retailer name, 50, 25, 6, 10 and
the sum of the item bonuses. -/
theorem totalPoints_bounds (impl : F64 → Int) (r : Receipt)
    (hprice : ∀ item ∈ r.Items, priceNonNeg item = true)
    (hsum : exactPoints impl r < 2 ^ 63) :
    (0 ≤ retailerPoints r.Retailer ∧ 0 ≤ dollarPoints r.Total ∧ 0 ≤ pricePoints impl r.Total ∧
        0 ≤ pairPoints r.Items ∧ 0 ≤ datePoints r.PurchaseDate ∧
        0 ≤ timePoints r.PurchaseTime ∧ ∀ item ∈ r.Items, 0 ≤ validateDesc impl item) ∧
      0 ≤ totalPoints impl r ∧
      5 * ((r.Items.length : Int) / 2) ≤ totalPoints impl r ∧
      totalPoints impl r ≤ 5 * ((r.Items.length : Int) / 2) + (r.Retailer.data.length : Int) +
        50 + 25 + 6 + 10 + (r.Items.map (validateDesc impl)).sum := by
  have hitem : ∀ item ∈ r.Items, 0 ≤ validateDesc impl item :=
    fun item hm => validateDesc_nonneg impl item (hprice item hm)
  have hdesc : 0 ≤ descPoints impl r.Items := by
    unfold descPoints
    apply List.sum_nonneg
    intro x hx
    obtain ⟨item, hmem, rfl⟩ := List.mem_map.mp hx
    exact hitem item hmem
  obtain ⟨h1, h2, h3, h4, h5, h6⟩ := contributions_nonneg impl r
  have heq : totalPoints impl r = exactPoints impl r := by
    rw [totalPoints_eq_wrap]
    refine wrap64_of_range _ ?_ hsum
    unfold exactPoints
    norm_num
    omega
  have hr : retailerPoints r.Retailer ≤ (r.Retailer.data.length : Int) := by
    unfold retailerPoints
    exact_mod_cast List.length_filter_le _ _
  have hd : dollarPoints r.Total ≤ 50 := by unfold dollarPoints; split <;> decide
  have hp : pricePoints impl r.Total ≤ 25 := by unfold pricePoints; split <;> decide
  have hda : datePoints r.PurchaseDate ≤ 6 := by
    unfold datePoints
    split
    · decide
    · split <;> decide
  have hti : timePoints r.PurchaseTime ≤ 10 := by
    unfold timePoints
    split
    · decide
    · split <;> decide
  refine ⟨⟨h1, h2, h3, h4, h5, h6, hitem⟩, ?_, ?_, ?_⟩
  · rw [heq]; unfold exactPoints; omega
  · rw [heq]; unfold exactPoints pairPoints at *; omega
  · rw [heq]; unfold exactPoints pairPoints descPoints at *; omega

set_option maxRecDepth 1000000 in
/-- C20 (witness): scenario A satisfies the two conditions. -/
theorem totalPoints_bounds_witness :
    (∀ item ∈ scenarioA.Items, priceNonNeg item = true) ∧
      exactPoints implAmd64 scenarioA < 2 ^ 63 ∧
      0 ≤ totalPoints implAmd64 scenarioA :=
  ⟨by decide!, by decide!,
    (totalPoints_bounds implAmd64 scenarioA (by decide!) (by decide!)).2.1⟩

/-! ## Accuracy of the float64 rounding -/

theorem bitLenAux_spec (fuel : Nat) : ∀ (n acc : Nat), n ≤ fuel →
    ∃ b, bitLenAux fuel n acc = acc + b ∧ n < 2 ^ b ∧ (0 < n → 2 ^ b ≤ 2 * n) := by
  induction fuel with
  | zero =>
    intro n acc hn
    have : n = 0 := by omega
    subst this
    exact ⟨0, rfl, by norm_num, fun h => absurd h (by omega)⟩
  | succ fuel ih =>
    intro n acc hn
    by_cases h0 : n = 0
    · subst h0
      exact ⟨0, by simp [bitLenAux], by norm_num, fun h => absurd h (by omega)⟩
    · obtain ⟨b, hb, hlt, hge⟩ := ih (n / 2) (acc + 1) (by omega)
      refine ⟨b + 1, ?_, ?_, ?_⟩
      · simp only [bitLenAux, h0, if_false]
        rw [hb]
        omega
      · rw [pow_succ]
        omega
      · intro _
        rw [pow_succ]
        by_cases h2 : n / 2 = 0
        · have hb0 : b = 0 := by
            have h1 : bitLenAux fuel (n / 2) (acc + 1) = acc + 1 := by
              rw [h2]
              cases fuel <;> simp [bitLenAux]
            omega
          subst hb0
          omega
        · have := hge (by omega)
          omega

theorem bitLen_spec (n : Nat) (hn : 0 < n) : n < 2 ^ bitLen n ∧ 2 ^ bitLen n ≤ 2 * n := by
  obtain ⟨b, hb, hlt, hge⟩ := bitLenAux_spec n n 0 (le_refl _)
  unfold bitLen
  rw [hb, zero_add]
  exact ⟨hlt, hge hn⟩

theorem scale_ratio (num den : Nat) (e : Int) :
    ((scaleNum num e : ℕ) : ℚ) / ((scaleDen den e : ℕ) : ℚ) =
      (num : ℚ) / (den : ℚ) * (2 : ℚ) ^ (-e) := by
  unfold scaleNum scaleDen
  by_cases he : e < 0
  · rw [if_pos he, if_pos he]
    have h : -e = (((-e).toNat : ℕ) : Int) := by omega
    conv_rhs => rw [h, zpow_natCast]
    push_cast
    ring
  · rw [if_neg he, if_neg he]
    have h : -e = -((e.toNat : ℕ) : Int) := by omega
    conv_rhs => rw [h, zpow_neg, zpow_natCast]
    push_cast
    field_simp

theorem ulpExp_spec (num den : Nat) (hnum : 0 < num) (hden : 0 < den) :
    ∃ e1 : Int, ulpExp num den = max e1 (-1074) ∧
      (2 : ℚ) ^ 52 ≤ (num : ℚ) / (den : ℚ) * (2 : ℚ) ^ (-e1) ∧
      (num : ℚ) / (den : ℚ) * (2 : ℚ) ^ (-e1) < (2 : ℚ) ^ 53 := by
  obtain ⟨ha1, ha2⟩ := bitLen_spec num hnum
  obtain ⟨hb1, hb2⟩ := bitLen_spec den hden
  have hdq : (0 : ℚ) < (den : ℚ) := by exact_mod_cast hden
  have hnq : (0 : ℚ) < (num : ℚ) := by exact_mod_cast hnum
  have ha1q : (num : ℚ) < (2 : ℚ) ^ bitLen num := by exact_mod_cast ha1
  have ha2q : (2 : ℚ) ^ bitLen num ≤ 2 * (num : ℚ) := by exact_mod_cast ha2
  have hb1q : (den : ℚ) < (2 : ℚ) ^ bitLen den := by exact_mod_cast hb1
  have hb2q : (2 : ℚ) ^ bitLen den ≤ 2 * (den : ℚ) := by exact_mod_cast hb2
  set a := bitLen num with ha
  set b := bitLen den with hb
  -- the first candidate exponent
  set e0 : Int := (a : Int) - (b : Int) - 52 with he0
  have hpow : (2 : ℚ) ^ (-e0) = (2 : ℚ) ^ 52 * (2 : ℚ) ^ b / (2 : ℚ) ^ a := by
    have : -e0 = (52 : Int) + (b : Int) - (a : Int) := by omega
    rw [this, zpow_sub₀ (by norm_num : (2 : ℚ) ≠ 0), zpow_add₀ (by norm_num : (2 : ℚ) ≠ 0)]
    norm_cast
  have hA : (0 : ℚ) < (2 : ℚ) ^ a := by positivity
  have hB : (0 : ℚ) < (2 : ℚ) ^ b := by positivity
  have ht0 : (num : ℚ) / (den : ℚ) * (2 : ℚ) ^ (-e0) =
      (num : ℚ) * (2 : ℚ) ^ b / ((den : ℚ) * (2 : ℚ) ^ a) * (2 : ℚ) ^ 52 := by
    rw [hpow]
    field_simp
    ring
  have hlo : (2 : ℚ) ^ 51 < (num : ℚ) / (den : ℚ) * (2 : ℚ) ^ (-e0) := by
    rw [ht0]
    have h1 : (1 : ℚ) / 2 < (num : ℚ) * (2 : ℚ) ^ b / ((den : ℚ) * (2 : ℚ) ^ a) := by
      rw [lt_div_iff₀ (by positivity)]
      nlinarith
    have : (2 : ℚ) ^ 51 = 1 / 2 * (2 : ℚ) ^ 52 := by norm_num
    rw [this]
    exact mul_lt_mul_of_pos_right h1 (by positivity)
  have hhi : (num : ℚ) / (den : ℚ) * (2 : ℚ) ^ (-e0) < (2 : ℚ) ^ 53 := by
    rw [ht0]
    have h1 : (num : ℚ) * (2 : ℚ) ^ b / ((den : ℚ) * (2 : ℚ) ^ a) < 2 := by
      rw [div_lt_iff₀ (by positivity)]
      nlinarith
    have : (2 : ℚ) ^ 53 = 2 * (2 : ℚ) ^ 52 := by norm_num
    rw [this]
    exact mul_lt_mul_of_pos_right h1 (by positivity)
  -- the test of `ulpExp` against the rational quotient
  have hsd : 0 < scaleDen den e0 := by
    unfold scaleDen
    split
    · exact hden
    · positivity
  have htest : scaleNum num e0 / scaleDen den e0 < 2 ^ 52 ↔
      (num : ℚ) / (den : ℚ) * (2 : ℚ) ^ (-e0) < (2 : ℚ) ^ 52 := by
    rw [← scale_ratio, Nat.div_lt_iff_lt_mul hsd]
    have hsdq : (0 : ℚ) < ((scaleDen den e0 : ℕ) : ℚ) := by exact_mod_cast hsd
    rw [div_lt_iff₀ hsdq]
    constructor
    · intro h; exact_mod_cast h
    · intro h; exact_mod_cast h
  have hue : ulpExp num den =
      max (if scaleNum num e0 / scaleDen den e0 < 2 ^ 52 then e0 - 1 else e0) (-1074) := rfl
  by_cases hc : scaleNum num e0 / scaleDen den e0 < 2 ^ 52
  · refine ⟨e0 - 1, by rw [hue, if_pos hc], ?_, ?_⟩
    · have h2 : (2 : ℚ) ^ (-(e0 - 1)) = (2 : ℚ) ^ (-e0) * 2 := by
        have : -(e0 - 1) = -e0 + 1 := by ring
        rw [this, zpow_add₀ (by norm_num : (2 : ℚ) ≠ 0)]
        norm_num
      rw [h2]
      nlinarith
    · have h2 : (2 : ℚ) ^ (-(e0 - 1)) = (2 : ℚ) ^ (-e0) * 2 := by
        have : -(e0 - 1) = -e0 + 1 := by ring
        rw [this, zpow_add₀ (by norm_num : (2 : ℚ) ≠ 0)]
        norm_num
      rw [h2]
      have := htest.mp hc
      nlinarith
  · refine ⟨e0, by rw [hue, if_neg hc], ?_, hhi⟩
    by_contra hcon
    exact hc (htest.mpr (not_le.mp hcon))

theorem roundRat_spec (s : Bool) (num den : Nat) (hnum : 0 < num) (hden : 0 < den)
    (hlo : (2 : ℚ) ^ (-1000 : Int) ≤ (num : ℚ) / (den : ℚ))
    (hhi : (num : ℚ) / (den : ℚ) ≤ (2 : ℚ) ^ (900 : Int)) :
    ∃ (mr : Nat) (e : Int) (m1 : Nat) (e1 : Int),
      roundRat s num den = F64.fin s m1 e1 ∧
      (m1 : ℚ) * (2 : ℚ) ^ e1 = (mr : ℚ) * (2 : ℚ) ^ e ∧
      (2 : ℚ) ^ 52 ≤ (num : ℚ) / (den : ℚ) * (2 : ℚ) ^ (-e) ∧
      (num : ℚ) / (den : ℚ) * (2 : ℚ) ^ (-e) < (2 : ℚ) ^ 53 ∧
      |(mr : ℚ) - (num : ℚ) / (den : ℚ) * (2 : ℚ) ^ (-e)| ≤ 1 / 2 := by
  obtain ⟨e, hue, h52, h53⟩ := ulpExp_spec num den hnum hden
  have hxpos : (0 : ℚ) < (num : ℚ) / (den : ℚ) := by positivity
  -- the exponent is neither subnormal nor too large
  have hge : -1074 ≤ e := by
    by_contra hcon
    have h1 : (2 : ℚ) ^ (1075 : Int) ≤ (2 : ℚ) ^ (-e) :=
      zpow_le_zpow_right₀ (by norm_num) (by omega)
    have h2 : (2 : ℚ) ^ (-1000 : Int) * (2 : ℚ) ^ (1075 : Int) ≤
        (num : ℚ) / (den : ℚ) * (2 : ℚ) ^ (-e) :=
      mul_le_mul hlo h1 (by positivity) (le_of_lt hxpos)
    have h3 : (2 : ℚ) ^ (-1000 : Int) * (2 : ℚ) ^ (1075 : Int) = (2 : ℚ) ^ (75 : Int) := by
      rw [← zpow_add₀ (by norm_num : (2 : ℚ) ≠ 0)]
      norm_num
    rw [h3] at h2
    have h4 : (2 : ℚ) ^ 53 < (2 : ℚ) ^ (75 : Int) := by norm_num
    linarith
  have hle : e ≤ 950 := by
    by_contra hcon
    have h1 : (2 : ℚ) ^ (-e) ≤ (2 : ℚ) ^ (-950 : Int) :=
      zpow_le_zpow_right₀ (by norm_num) (by omega)
    have h2 : (num : ℚ) / (den : ℚ) * (2 : ℚ) ^ (-e) ≤
        (2 : ℚ) ^ (900 : Int) * (2 : ℚ) ^ (-950 : Int) :=
      mul_le_mul hhi h1 (by positivity) (by positivity)
    have h3 : (2 : ℚ) ^ (900 : Int) * (2 : ℚ) ^ (-950 : Int) = (2 : ℚ) ^ (-50 : Int) := by
      rw [← zpow_add₀ (by norm_num : (2 : ℚ) ≠ 0)]
      norm_num
    rw [h3] at h2
    have h4 : (2 : ℚ) ^ (-50 : Int) < (2 : ℚ) ^ 52 := by
      rw [zpow_neg]
      norm_num
    linarith
  have hu : ulpExp num den = e := by rw [hue]; exact max_eq_left hge
  -- the scaled quotient and remainder
  have hd : 0 < scaleDen den e := by
    unfold scaleDen
    split
    · exact hden
    · positivity
  have hdq : (0 : ℚ) < ((scaleDen den e : ℕ) : ℚ) := by exact_mod_cast hd
  have hdiv := Nat.div_add_mod (scaleNum num e) (scaleDen den e)
  have hmod := Nat.mod_lt (scaleNum num e) hd
  have hratio := scale_ratio num den e
  set n := scaleNum num e with hn
  set d := scaleDen den e with hdd
  have hnq : (n : ℚ) / (d : ℚ) = ((n / d : ℕ) : ℚ) + ((n % d : ℕ) : ℚ) / (d : ℚ) := by
    have : (n : ℚ) = (d : ℚ) * ((n / d : ℕ) : ℚ) + ((n % d : ℕ) : ℚ) := by exact_mod_cast hdiv.symm
    field_simp
    linarith
  have hfrac0 : (0 : ℚ) ≤ ((n % d : ℕ) : ℚ) / (d : ℚ) := by positivity
  -- the rounded mantissa
  set mr : Nat := if 2 * (n % d) > d ∨ (2 * (n % d) = d ∧ n / d % 2 = 1) then n / d + 1 else n / d
    with hmr
  have herr : |(mr : ℚ) - (num : ℚ) / (den : ℚ) * (2 : ℚ) ^ (-e)| ≤ 1 / 2 := by
    rw [← hratio, hnq, hmr]
    by_cases hc : 2 * (n % d) > d ∨ (2 * (n % d) = d ∧ n / d % 2 = 1)
    · rw [if_pos hc]
      have h2 : d ≤ 2 * (n % d) := by omega
      have h2q : (d : ℚ) ≤ 2 * ((n % d : ℕ) : ℚ) := by exact_mod_cast h2
      have h3 : (1 : ℚ) / 2 ≤ ((n % d : ℕ) : ℚ) / (d : ℚ) := by
        rw [le_div_iff₀ hdq]; linarith
      have h4 : ((n % d : ℕ) : ℚ) / (d : ℚ) < 1 := by
        rw [div_lt_one hdq]; exact_mod_cast hmod
      rw [abs_le]
      push_cast
      constructor <;> linarith
    · rw [if_neg hc]
      have h2 : 2 * (n % d) ≤ d := by omega
      have h2q : 2 * ((n % d : ℕ) : ℚ) ≤ (d : ℚ) := by exact_mod_cast h2
      have h3 : ((n % d : ℕ) : ℚ) / (d : ℚ) ≤ 1 / 2 := by
        rw [div_le_iff₀ hdq]; linarith
      rw [abs_le]
      constructor <;> linarith
  have hR : roundRat s num den =
      if (if mr = 2 ^ 53 then ((2 ^ 52 : Nat), e + 1) else (mr, e)).2 > 971 then F64.inf s
      else F64.fin s (if mr = 2 ^ 53 then ((2 ^ 52 : Nat), e + 1) else (mr, e)).1
        (if mr = 2 ^ 53 then ((2 ^ 52 : Nat), e + 1) else (mr, e)).2 := by
    unfold roundRat
    rw [if_neg (by omega)]
    simp only [hu]
  by_cases h253 : mr = 2 ^ 53
  · refine ⟨mr, e, 2 ^ 52, e + 1, ?_, ?_, h52, h53, herr⟩
    · rw [hR, if_pos h253]
      simp only []
      rw [if_neg (by omega)]
    · rw [h253, zpow_add₀ (by norm_num : (2 : ℚ) ≠ 0)]
      push_cast
      ring
  · refine ⟨mr, e, mr, e, ?_, rfl, h52, h53, herr⟩
    rw [hR, if_neg h253]
    simp only []
    rw [if_neg (by omega)]

/-! ## Scanning a decimal text with two fraction digits -/

theorem lower_eq_x_table :
    ∀ n : Fin 128, lower (Char.ofNat n.val) = 'x' → n.val = 88 ∨ n.val = 120 := by
  decide!

theorem lower_ne_x (c : Char) (h : c.toNat ≠ 88 ∧ c.toNat ≠ 120) : lower c ≠ 'x' := by
  intro hl
  by_cases h128 : c.toNat < 128
  · have := lower_eq_x_table ⟨c.toNat, h128⟩ (by simpa using hl)
    simp at this
    omega
  · unfold lower at hl
    rw [if_neg h128] at hl
    rw [hl] at h128
    exact h128 (by decide)

theorem digit_ne (c : Char) (h : isDigit c = true) :
    c ≠ '_' ∧ c ≠ '.' ∧ c ≠ '+' ∧ c ≠ '-' ∧ c ≠ 'i' ∧ c ≠ 'I' ∧ c ≠ 'n' ∧ c ≠ 'N' := by
  rw [isDigit_iff] at h
  refine ⟨?_, ?_, ?_, ?_, ?_, ?_, ?_, ?_⟩ <;>
  · intro e
    rw [e] at h
    revert h
    decide

theorem readDigits_digit (c : Char) (cs : List Char) (st : Digits) (h : isDigit c = true) :
    readDigits 10 (c :: cs) st =
      if c = '0' ∧ st.nd = 0 then
        readDigits 10 cs ⟨st.mantissa, st.nd, st.dp - 1, st.sawdot, true, st.underscores⟩
      else
        readDigits 10 cs
          ⟨st.mantissa * 10 + digitVal c, st.nd + 1, st.dp, st.sawdot, true, st.underscores⟩ := by
  obtain ⟨h1, h2, _⟩ := digit_ne c h
  simp only [readDigits, h1, h2, h, if_false, if_true]

theorem readDigits_digits (ds : List Char) : ∀ (rest : List Char) (st : Digits),
    (∀ c ∈ ds, isDigit c = true) → (st.nd = 0 → st.mantissa = 0) →
    ∃ st1 : Digits, readDigits 10 (ds ++ rest) st = readDigits 10 rest st1 ∧
      st1.mantissa = ds.foldl (fun a c => a * 10 + digitVal c) st.mantissa ∧
      st1.dp - (st1.nd : Int) = st.dp - (st.nd : Int) - (ds.length : Int) ∧
      st1.sawdot = st.sawdot ∧ st1.underscores = st.underscores ∧
      (st.sawdigits = true ∨ ds ≠ [] → st1.sawdigits = true) ∧
      (st1.nd = 0 → st1.mantissa = 0) := by
  induction ds with
  | nil =>
    intro rest st _ hinv
    refine ⟨st, rfl, rfl, by simp, rfl, rfl, ?_, hinv⟩
    rintro (h | h)
    · exact h
    · exact absurd rfl h
  | cons c cs ih =>
    intro rest st hall hinv
    have hc : isDigit c = true := hall c (List.mem_cons_self _ _)
    have hcs : ∀ x ∈ cs, isDigit x = true := fun x hx => hall x (List.mem_cons_of_mem _ hx)
    rw [List.cons_append, readDigits_digit c _ st hc]
    by_cases hz : c = '0' ∧ st.nd = 0
    · rw [if_pos hz]
      obtain ⟨st1, e1, e2, e3, e4, e5, e6, e7⟩ :=
        ih rest ⟨st.mantissa, st.nd, st.dp - 1, st.sawdot, true, st.underscores⟩ hcs hinv
      refine ⟨st1, e1, ?_, ?_, e4, e5, fun _ => e6 (Or.inl rfl), e7⟩
      · rw [e2, List.foldl_cons]
        have hm : st.mantissa = 0 := hinv hz.2
        have hd : digitVal c = 0 := by rw [hz.1]; decide
        simp only [hm, hd]
      · rw [e3]
        simp only [List.length_cons]
        push_cast
        ring
    · rw [if_neg hz]
      obtain ⟨st1, e1, e2, e3, e4, e5, e6, e7⟩ :=
        ih rest ⟨st.mantissa * 10 + digitVal c, st.nd + 1, st.dp, st.sawdot, true,
          st.underscores⟩ hcs (by intro h; simp at h)
      refine ⟨st1, e1, ?_, ?_, e4, e5, fun _ => e6 (Or.inl rfl), e7⟩
      · rw [e2, List.foldl_cons]
      · rw [e3]
        simp only [List.length_cons]
        push_cast
        ring

theorem readDigits_dot (cs : List Char) (st : Digits) (h : st.sawdot = false) :
    readDigits 10 ('.' :: cs) st =
      readDigits 10 cs ⟨st.mantissa, st.nd, st.nd, true, st.sawdigits, st.underscores⟩ := by
  simp only [readDigits, h]
  simp

theorem readFloat_twoDecimal (ds : List Char) (y1 y2 : Char)
    (hds : ∀ c ∈ ds, isDigit c = true) (h1 : isDigit y1 = true) (h2 : isDigit y2 = true) :
    readFloat (ds ++ ['.', y1, y2]) =
      some ⟨false, centsOf ds y1 y2, if centsOf ds y1 y2 = 0 then 0 else -2, true⟩ := by
  -- the three parts of the mantissa loop
  obtain ⟨st1, e1, m1, d1, sd1, u1, sg1, inv1⟩ :=
    readDigits_digits ds ['.', y1, y2] ⟨0, 0, 0, false, false, false⟩ hds (fun _ => rfl)
  have hy : ∀ c ∈ [y1, y2], isDigit c = true := by
    intro c hc
    simp only [List.mem_cons, List.mem_singleton, List.not_mem_nil, or_false] at hc
    rcases hc with rfl | rfl
    · exact h1
    · exact h2
  obtain ⟨st2, e2, m2, d2, sd2, u2, sg2, inv2⟩ :=
    readDigits_digits [y1, y2] [] ⟨st1.mantissa, st1.nd, st1.nd, true, st1.sawdigits,
      st1.underscores⟩ hy inv1
  have hloop : readDigits 10 (ds ++ ['.', y1, y2]) ⟨0, 0, 0, false, false, false⟩ = (st2, []) := by
    rw [e1, readDigits_dot _ _ sd1]
    have : [y1, y2] = [y1, y2] ++ ([] : List Char) := rfl
    rw [this, e2]
    rfl
  have hm : st2.mantissa = centsOf ds y1 y2 := by
    rw [m2]
    unfold centsOf decVal
    rw [List.foldl_append, ← m1]
  have hdp : st2.dp - (st2.nd : Int) = -2 := by
    rw [d2]
    simp
  have hsd : st2.sawdot = true := sd2
  have hu : st2.underscores = false := by rw [u2]; exact u1
  have hsg : st2.sawdigits = true := sg2 (Or.inr (by simp))
  have h2 : st2.dp + 0 - (st2.nd : Int) = -2 := by omega
  -- the head of the text
  rcases ds with _ | ⟨c0, cs⟩
  · unfold readFloat
    have hd : decide ('.' = '-') = false := by decide
    have hp : ¬ ('.' = '+' ∨ '.' = '-') := by decide
    have hz : decide ('.' = '0') = false := by decide
    simp only [List.nil_append, hd, hp, if_false, hz, Bool.false_and] at hloop ⊢
    simp only [Bool.false_eq_true, if_false, hloop, hsg, readExponent, hu, Bool.or_false,
      ne_eq, not_true_eq_false, false_and, hsd, if_true, Bool.not_false, hm,
      Bool.true_eq_false, decide_False, h2]
  have hc0 := hds c0 (List.mem_cons_self _ _)
  obtain ⟨_, _, hplus, hminus, _⟩ := digit_ne c0 hc0
  have hneg : decide (c0 = '-') = false := by simp [hminus]
  have hx : ∀ x, isDigit x = true ∨ x = '.' → (decide (c0 = '0') && decide (lower x = 'x')) = false := by
    intro x hx
    have : lower x ≠ 'x' := by
      rcases hx with hx | rfl
      · apply lower_ne_x
        unfold isDigit at hx
        simp only [Bool.and_eq_true, decide_eq_true_eq] at hx
        have := hx.1
        have := hx.2
        constructor <;> intro h <;> omega
      · decide
    simp [this]
  unfold readFloat
  simp only [hneg]
  rcases cs with _ | ⟨x, xs⟩
  · simp only [List.cons_append, List.nil_append, hplus, hminus, or_self, if_false] at hloop ⊢
    rw [hx '.' (Or.inr rfl)]
    simp only [Bool.false_eq_true, if_false, hloop, hsg, readExponent, hu, Bool.or_false,
      ne_eq, not_true_eq_false, false_and, hsd, if_true, Bool.not_false, hm,
      Bool.true_eq_false, decide_False, h2]
  · have hxd := hds x (by simp)
    rcases xs with _ | ⟨x2, xs2⟩
    · simp only [List.cons_append, List.nil_append, hplus, hminus, or_self, if_false] at hloop ⊢
      rw [hx x (Or.inl hxd)]
      simp only [Bool.false_eq_true, if_false, hloop, hsg, readExponent, hu, Bool.or_false,
        ne_eq, not_true_eq_false, false_and, hsd, if_true, Bool.not_false, hm,
        Bool.true_eq_false, decide_False, h2]
    · simp only [List.cons_append, List.nil_append, hplus, hminus, or_self, if_false] at hloop ⊢
      rw [hx x (Or.inl hxd)]
      simp only [Bool.false_eq_true, if_false, hloop, hsg, readExponent, hu, Bool.or_false,
        ne_eq, not_true_eq_false, false_and, hsd, if_true, Bool.not_false, hm,
        Bool.true_eq_false, decide_False, h2]

/-! ## Two float64 roundings against the exact fifth -/

theorem roundRat_err (s : Bool) (num den : Nat) (hnum : 0 < num) (hden : 0 < den)
    (hlo : (2 : ℚ) ^ (-1000 : Int) ≤ (num : ℚ) / (den : ℚ))
    (hhi : (num : ℚ) / (den : ℚ) ≤ (2 : ℚ) ^ (900 : Int)) :
    ∃ (m1 : Nat) (e1 : Int) (mr : Nat) (e : Int),
      roundRat s num den = F64.fin s m1 e1 ∧
      (m1 : ℚ) * (2 : ℚ) ^ e1 = (mr : ℚ) * (2 : ℚ) ^ e ∧
      (2 : ℚ) ^ 52 * (2 : ℚ) ^ e ≤ (num : ℚ) / (den : ℚ) ∧
      (num : ℚ) / (den : ℚ) < (2 : ℚ) ^ 53 * (2 : ℚ) ^ e ∧
      |(mr : ℚ) * (2 : ℚ) ^ e - (num : ℚ) / (den : ℚ)| ≤ (2 : ℚ) ^ e / 2 := by
  obtain ⟨mr, e, m1, e1, hr, hv, h52, h53, herr⟩ := roundRat_spec s num den hnum hden hlo hhi
  refine ⟨m1, e1, mr, e, hr, hv, ?_, ?_, ?_⟩
  all_goals
    have hz : (0 : ℚ) < (2 : ℚ) ^ e := by positivity
    rw [zpow_neg] at h52 h53 herr
    generalize (2 : ℚ) ^ e = z at hz h52 h53 herr ⊢
    generalize (num : ℚ) / (den : ℚ) = q at h52 h53 herr ⊢
    rw [← div_eq_mul_inv] at h52 h53 herr
  · exact (le_div_iff₀ hz).mp h52
  · exact (div_lt_iff₀ hz).mp h53
  · have e1 : (mr : ℚ) * z - q = ((mr : ℚ) - q / z) * z := by field_simp
    rw [e1, abs_mul, abs_of_pos hz]
    calc |(mr : ℚ) - q / z| * z ≤ 1 / 2 * z := mul_le_mul_of_nonneg_right herr hz.le
      _ = z / 2 := by ring

theorem scaleNum_pos (n : Nat) (e : Int) (h : 0 < n) : 0 < scaleNum n e := by
  unfold scaleNum
  split
  · positivity
  · exact h

theorem scaleDen_pos (n : Nat) (e : Int) (h : 0 < n) : 0 < scaleDen n e := by
  unfold scaleDen
  split
  · exact h
  · positivity

theorem int_eq_of_abs_sub_lt_one (a b : Int) (h : |(a : ℚ) - (b : ℚ)| < 1) : a = b := by
  have h1 : |a - b| < 1 := by exact_mod_cast h
  have := Int.abs_lt_one_iff.mp h1
  omega

theorem nat_div_zpow (n : Nat) (e : Int) (he : e ≤ 0) :
    ∃ N : Nat, (n : ℚ) = (N : ℚ) * (2 : ℚ) ^ e := by
  obtain ⟨k, hk⟩ : ∃ k : Nat, e = -(k : Int) := ⟨(-e).toNat, by omega⟩
  subst hk
  refine ⟨n * 2 ^ k, ?_⟩
  rw [zpow_neg, zpow_natCast]
  push_cast
  field_simp

theorem exp_nonpos_of_lt (e : Int) (q : ℚ) (h : (2 : ℚ) ^ 52 * (2 : ℚ) ^ e ≤ q)
    (hq : q < (2 : ℚ) ^ 53) : e ≤ 0 := by
  by_contra hcon
  have h1 : (2 : ℚ) ^ (1 : Int) ≤ (2 : ℚ) ^ e := zpow_le_zpow_right₀ (by norm_num) (by omega)
  norm_num at h1 h hq
  linarith

/-- A natural multiple of a power of two that is within half a unit of a
multiple of the same unit is that multiple. -/
theorem round_exact (mr N : Nat) (z d : ℚ) (hz : 0 < z) (hd : |d| < z / 2)
    (h : |(mr : ℚ) * z - ((N : ℚ) * z + d)| ≤ z / 2) : mr = N := by
  have h1 : |((mr : ℚ) - (N : ℚ)) * z| < z := by
    have e1 : ((mr : ℚ) - (N : ℚ)) * z = ((mr : ℚ) * z - ((N : ℚ) * z + d)) + d := by ring
    rw [e1]
    calc |((mr : ℚ) * z - ((N : ℚ) * z + d)) + d|
        ≤ |(mr : ℚ) * z - ((N : ℚ) * z + d)| + |d| := abs_add _ _
      _ < z := by linarith
  rw [abs_mul, abs_of_pos hz] at h1
  have h2 : |(mr : ℚ) - (N : ℚ)| < 1 := by
    by_contra hcon
    have := mul_le_mul_of_nonneg_right (not_lt.mp hcon) hz.le
    linarith
  have := int_eq_of_abs_sub_lt_one (mr : Int) (N : Int) (by exact_mod_cast h2)
  exact_mod_cast this

/-- The arithmetic core: two roundings to 53 bits, of `c / 100` and of the
product by the binary64 nearest to one fifth, keep the ceiling of `c / 500`
while `c < 10^15`. -/
theorem ceil_fifth_core (c mr mr2 : Nat) (e e2 : Int) (hc : 0 < c) (hc2 : c < 10 ^ 15)
    (h52 : (2 : ℚ) ^ 52 * (2 : ℚ) ^ e ≤ (c : ℚ) / 100)
    (herr : |(mr : ℚ) * (2 : ℚ) ^ e - (c : ℚ) / 100| ≤ (2 : ℚ) ^ e / 2)
    (h52b : (2 : ℚ) ^ 52 * (2 : ℚ) ^ e2 ≤
      (mr : ℚ) * (2 : ℚ) ^ e * (7205759403792794 / 2 ^ 55))
    (h53b : (mr : ℚ) * (2 : ℚ) ^ e * (7205759403792794 / 2 ^ 55) <
      (2 : ℚ) ^ 53 * (2 : ℚ) ^ e2)
    (herrb : |(mr2 : ℚ) * (2 : ℚ) ^ e2 -
      (mr : ℚ) * (2 : ℚ) ^ e * (7205759403792794 / 2 ^ 55)| ≤ (2 : ℚ) ^ e2 / 2) :
    ⌈(mr2 : ℚ) * (2 : ℚ) ^ e2⌉ = ⌈(c : ℚ) / 500⌉ := by
  have hz : (0 : ℚ) < (2 : ℚ) ^ e := by positivity
  have hz2 : (0 : ℚ) < (2 : ℚ) ^ e2 := by positivity
  obtain ⟨k, r, hkr, hr1, hr2⟩ : ∃ k r : Nat, c = 500 * k + r ∧ 1 ≤ r ∧ r ≤ 500 :=
    ⟨(c - 1) / 500, (c - 1) % 500 + 1, by omega, by omega, by omega⟩
  have hcq : (c : ℚ) = 500 * (k : ℚ) + (r : ℚ) := by exact_mod_cast hkr
  have hr1q : (1 : ℚ) ≤ (r : ℚ) := by exact_mod_cast hr1
  have hr2q : (r : ℚ) ≤ 500 := by exact_mod_cast hr2
  have hc2q : (c : ℚ) < 1000000000000000 := by exact_mod_cast hc2
  have hcpos : (0 : ℚ) < (c : ℚ) := by exact_mod_cast hc
  have hceil : ⌈(c : ℚ) / 500⌉ = (k : Int) + 1 := by
    rw [Int.ceil_eq_iff]
    push_cast
    constructor
    · rw [lt_div_iff₀ (by norm_num)]; linarith
    · rw [div_le_iff₀ (by norm_num)]; linarith
  rw [hceil]
  by_cases hr : r = 500
  · -- a whole multiple of five dollars: both roundings are exact
    have hrq : (r : ℚ) = 500 := by exact_mod_cast hr
    have hx : (c : ℚ) / 100 = ((5 * (k + 1) : ℕ) : ℚ) := by
      rw [hcq, hrq]; push_cast; ring
    have he : e ≤ 0 := exp_nonpos_of_lt e _ h52 (by norm_num; linarith)
    obtain ⟨N1, hN1⟩ := nat_div_zpow (5 * (k + 1)) e he
    rw [hx, hN1] at herr
    have h1 : mr = N1 := by
      refine round_exact mr N1 _ 0 hz (by simpa using hz) ?_
      simpa using herr
    subst h1
    rw [← hN1] at h52b h53b herrb
    have hy : ((5 * (k + 1) : ℕ) : ℚ) * (7205759403792794 / 2 ^ 55) =
        ((k + 1 : ℕ) : ℚ) + ((k + 1 : ℕ) : ℚ) / 2 ^ 54 := by
      push_cast; ring
    rw [hy] at h52b h53b herrb
    have hkq : ((k + 1 : ℕ) : ℚ) ≤ 10000000000000 := by
      push_cast; linarith
    have hkpos : (0 : ℚ) < ((k + 1 : ℕ) : ℚ) := by positivity
    have he2 : e2 ≤ 0 := by
      refine exp_nonpos_of_lt e2 _ h52b ?_
      norm_num at hkq ⊢
      linarith
    obtain ⟨N2, hN2⟩ := nat_div_zpow (k + 1) e2 he2
    generalize ((k + 1 : ℕ) : ℚ) = n at hkq hkpos h52b h53b herrb hN2 hy
    have h2 : mr2 = N2 := by
      refine round_exact mr2 N2 _ (n / 2 ^ 54) hz2 ?_ ?_
      · rw [abs_of_pos (by positivity)]
        norm_num at h53b ⊢
        linarith
      · rw [← hN2]; exact herrb
    subst h2
    rw [← hN2]
    rw [Int.ceil_eq_iff]
    push_cast
    constructor <;> linarith
  · -- otherwise the two relative errors of 2^-53 stay below the distance to the
    -- next integer
    have hr3 : (r : ℚ) ≤ 499 := by
      have : r ≤ 499 := by omega
      exact_mod_cast this
    generalize (2 : ℚ) ^ e = z at hz h52 herr h52b h53b herrb
    generalize (2 : ℚ) ^ e2 = z2 at hz2 h52b h53b herrb ⊢
    generalize (mr : ℚ) * z = p at herr h52b h53b herrb
    generalize (mr2 : ℚ) * z2 = w at herrb ⊢
    rw [abs_le] at herr herrb
    norm_num at h52 h52b h53b herr herrb
    rw [Int.ceil_eq_iff]
    push_cast
    constructor
    · linarith
    · linarith

theorem special_twoDecimal (ds : List Char) (y1 y2 : Char)
    (hds : ∀ c ∈ ds, isDigit c = true) : special (ds ++ ['.', y1, y2]) = none := by
  rcases ds with _ | ⟨c0, cs⟩
  · rfl
  · have hc0 := hds c0 (List.mem_cons_self _ _)
    obtain ⟨_, _, hplus, hminus, hi, hI, hn, hN⟩ := digit_ne c0 hc0
    simp [special, hplus, hminus, hi, hI, hn, hN]

theorem roundRat_zero (s : Bool) (den : Nat) : roundRat s 0 den = F64.fin s 0 (-1074) := by
  simp [roundRat]

/-- The float64 product of the parsed price `c / 100` by `0.2` has the ceiling
of the exact fifth, `ceil (c / 500)`, as long as `c < 10^15`. -/
theorem mul_fifth_ceil (c : Nat) (hc : 0 < c) (hc2 : c < 10 ^ 15) :
    ∃ (m1 : Nat) (e1 : Int) (m : Nat) (e : Int),
      roundRat false c (10 ^ 2) = F64.fin false m1 e1 ∧
      F64.mul (F64.fin false m1 e1) f64_0_2 = F64.fin false m e ∧
      ⌈(m : ℚ) * (2 : ℚ) ^ e⌉ = ⌈(c : ℚ) / 500⌉ := by
  have hcq : (1 : ℚ) ≤ (c : ℚ) := by exact_mod_cast hc
  have hc2q : (c : ℚ) < 1000000000000000 := by exact_mod_cast hc2
  have hden : (((10 ^ 2 : ℕ) : ℕ) : ℚ) = 100 := by norm_num
  have hlo7 : (2 : ℚ) ^ (-1000 : Int) ≤ (2 : ℚ) ^ (-20 : Int) :=
    zpow_le_zpow_right₀ (by norm_num) (by norm_num)
  have hhi60 : (2 : ℚ) ^ (60 : Int) ≤ (2 : ℚ) ^ (900 : Int) :=
    zpow_le_zpow_right₀ (by norm_num) (by norm_num)
  have e20 : (2 : ℚ) ^ (-20 : Int) = 1 / 1048576 := by norm_num
  have e60 : (2 : ℚ) ^ (60 : Int) = 1152921504606846976 := by norm_num
  rw [e20] at hlo7
  rw [e60] at hhi60
  obtain ⟨m1, e1, mr, e, hr, hv, h52, h53, herr⟩ :=
    roundRat_err false c (10 ^ 2) hc (by norm_num)
      (by rw [hden]; generalize (2 : ℚ) ^ (-1000 : Int) = lo at hlo7 ⊢
          rw [le_div_iff₀ (by norm_num)]; linarith)
      (by rw [hden]; generalize (2 : ℚ) ^ (900 : Int) = hi at hhi60 ⊢
          rw [div_le_iff₀ (by norm_num)]; linarith)
  rw [hden] at h52 h53 herr
  have hz : (0 : ℚ) < (2 : ℚ) ^ e := by positivity
  have hz1 : (0 : ℚ) < (2 : ℚ) ^ e1 := by positivity
  -- the parsed price is positive, between half and twice the exact one
  have hp := abs_le.mp herr
  have hzle : (2 : ℚ) ^ e ≤ (c : ℚ) / 100 / 2 ^ 52 := by
    rw [le_div_iff₀ (by positivity)]; linarith
  have hcx : (1 : ℚ) / 100 ≤ (c : ℚ) / 100 := by
    rw [div_le_div_iff_of_pos_right (by norm_num)]; exact hcq
  have hcx2 : (c : ℚ) / 100 < 10000000000000 := by
    rw [div_lt_iff₀ (by norm_num)]; linarith
  have hm1 : 0 < m1 := by
    rcases Nat.eq_zero_or_pos m1 with h0 | h0
    · rw [h0] at hv
      norm_num at hv hzle
      have : (mr : ℚ) * (2 : ℚ) ^ e = 0 := by
        rcases hv with h | h
        · rw [h]; simp
        · exact absurd h (ne_of_gt hz)
      rw [this] at hp
      linarith [hp.1, hp.2]
    · exact h0
  -- the product
  have hmul : F64.mul (F64.fin false m1 e1) f64_0_2 =
      roundRat false (scaleNum (m1 * 7205759403792794) (-(e1 + -55)))
        (scaleDen 1 (-(e1 + -55))) := by
    rw [f64_0_2_eq]
    rfl
  have hratio := scale_ratio (m1 * 7205759403792794) 1 (-(e1 + -55))
  have hy : ((m1 * 7205759403792794 : ℕ) : ℚ) / ((1 : ℕ) : ℚ) * (2 : ℚ) ^ (-(-(e1 + -55))) =
      (mr : ℚ) * (2 : ℚ) ^ e * (7205759403792794 / 2 ^ 55) := by
    rw [neg_neg, zpow_add₀ (by norm_num), ← hv]
    push_cast
    have : (2 : ℚ) ^ (-55 : Int) = 1 / 2 ^ 55 := by
      rw [zpow_neg]; norm_num
    rw [this]
    ring
  rw [hy] at hratio
  obtain ⟨m2, e2, mr2, e3, hr2, hv2, h52b, h53b, herrb⟩ :=
    roundRat_err false (scaleNum (m1 * 7205759403792794) (-(e1 + -55)))
      (scaleDen 1 (-(e1 + -55))) (scaleNum_pos _ _ (by positivity)) (scaleDen_pos _ _ (by norm_num))
      (by rw [hratio]; generalize (2 : ℚ) ^ (-1000 : Int) = lo at hlo7 ⊢
          norm_num at hzle ⊢; linarith [hp.1, hp.2])
      (by rw [hratio]; generalize (2 : ℚ) ^ (900 : Int) = hi at hhi60 ⊢
          norm_num at hzle ⊢; linarith [hp.1, hp.2])
  rw [hratio] at h52b h53b herrb
  refine ⟨m1, e1, m2, e2, hr, by rw [hmul, hr2], ?_⟩
  rw [hv2]
  exact ceil_fifth_core c mr mr2 e e3 hc hc2 h52 herr h52b h53b herrb

theorem ParseFloat_twoDecimal (ds : List Char) (y1 y2 : Char)
    (hds : ∀ c ∈ ds, isDigit c = true) (h1 : isDigit y1 = true) (h2 : isDigit y2 = true)
    (m : Nat) (e : Int)
    (hfin : (if centsOf ds y1 y2 = 0 then roundRat false 0 1
      else roundRat false (centsOf ds y1 y2) (10 ^ 2)) = F64.fin false m e) :
    ParseFloat (twoDecimalText ds y1 y2) = Except.ok (F64.fin false m e) := by
  have hsp := special_twoDecimal ds y1 y2 hds
  have hrf := readFloat_twoDecimal ds y1 y2 hds h1 h2
  unfold ParseFloat twoDecimalText
  simp only [hsp, hrf, if_true]
  by_cases hc : centsOf ds y1 y2 = 0
  · rw [if_pos hc] at hfin
    simp only [hc, if_true, le_refl, Int.toNat_zero, pow_zero, mul_one, hfin]
  · rw [if_neg hc] at hfin
    have h20 : ¬ (0 : Int) ≤ -2 := by decide
    have h22 : (-(-2 : Int)).toNat = 2 := by decide
    simp only [hc, if_false, h20, h22, hfin]

theorem centsOf_eq (ds : List Char) (y1 y2 : Char) :
    centsOf ds y1 y2 = 100 * decVal ds + 10 * digitVal y1 + digitVal y2 := by
  unfold centsOf decVal
  rw [List.foldl_append]
  simp only [List.foldl_cons, List.foldl_nil]
  ring

theorem toInt_zero (impl : F64 → Int) : F64.toInt impl (F64.fin false 0 0) = 0 := by
  rw [toInt_fin_eq]
  have : F64.trunc false 0 0 = 0 := by decide
  rw [this]
  simp

theorem ceil_mul_zero :
    F64.ceil (F64.mul (F64.fin false 0 (-1074)) f64_0_2) = F64.fin false 0 0 := by decide!

/-! ## C18 -/

set_option maxRecDepth 1000000 in
/-- C18 (counterexample): for the description `abc` and the price
`200000000000000.01` (two fraction digits, 20000000000000001 cents) the exact
fifth is 40000000000000.002, of ceiling 40000000000001, but the float64
nearest to the price is 200000000000000.0, its product by 0.2 is
40000000000000.0, and `validateDesc` returns 40000000000000. -/
theorem validateDesc_large_price :
    len (TrimSpace "abc".data) % 3 = 0 ∧
      twoDecimalText "200000000000000".data '0' '1' = "200000000000000.01" ∧
      validateDesc implAmd64 ⟨"abc", "200000000000000.01"⟩ = 40000000000000 ∧
      validateDesc implArm64 ⟨"abc", "200000000000000.01"⟩ = 40000000000000 ∧
      ⌈((centsOf "200000000000000".data '0' '1' : ℕ) : ℚ) / 100 * (1 / 5)⌉ = 40000000000001 := by
  refine ⟨by decide!, by decide!, by decide!, by decide!, ?_⟩
  have h : centsOf "200000000000000".data '0' '1' = 20000000000000001 := by decide!
  rw [h, Int.ceil_eq_iff]
  norm_num

/-- C18 (amended): for a description whose trimmed byte length is a multiple
of 3 and a price text made of decimal digits, a point and exactly two more
digits, worth less than `10^13` (fewer than `10^15` cents), `validateDesc`
equals the mathematical ceiling of the exact value `price * 0.2`, where the
exact price is `centsOf / 100`: the two float64 roundings (of the parse and of
the product by the binary64 nearest to 0.2) never carry the product over an
integer in that range. -/
theorem validateDesc_twoDecimal (impl : F64 → Int) (desc : String) (ds : List Char)
    (y1 y2 : Char) (hdesc : len (TrimSpace desc.data) % 3 = 0)
    (hds : ∀ c ∈ ds, isDigit c = true) (h1 : isDigit y1 = true) (h2 : isDigit y2 = true)
    (hc2 : centsOf ds y1 y2 < 10 ^ 15) :
    validateDesc impl ⟨desc, twoDecimalText ds y1 y2⟩ =
      ⌈(centsOf ds y1 y2 : ℚ) / 100 * (1 / 5)⌉ := by
  unfold validateDesc
  simp only [hdesc, if_true]
  by_cases hc : centsOf ds y1 y2 = 0
  · have hp := ParseFloat_twoDecimal ds y1 y2 hds h1 h2 0 (-1074)
      (by rw [if_pos hc]; exact roundRat_zero false 1)
    simp only [hp, ceil_mul_zero, toInt_zero, hc]
    simp
  · have hpos : 0 < centsOf ds y1 y2 := Nat.pos_of_ne_zero hc
    obtain ⟨m1, e1, m, e, hr, hmul, hceil⟩ := mul_fifth_ceil (centsOf ds y1 y2) hpos hc2
    have hp := ParseFloat_twoDecimal ds y1 y2 hds h1 h2 m1 e1 (by rw [if_neg hc]; exact hr)
    obtain ⟨s1, m3, e3, hc3, ht⟩ := ceil_trunc false m e
    simp only [hp, hmul, hc3, toInt_fin_eq, ht]
    have hsimp : (if false = true then (-1 : ℚ) else 1) * (m : ℚ) * (2 : ℚ) ^ e =
        (m : ℚ) * (2 : ℚ) ^ e := by simp
    rw [hsimp, hceil]
    have heq : (centsOf ds y1 y2 : ℚ) / 100 * (1 / 5) = (centsOf ds y1 y2 : ℚ) / 500 := by ring
    rw [heq]
    have hlo : (0 : Int) ≤ ⌈(centsOf ds y1 y2 : ℚ) / 500⌉ := Int.ceil_nonneg (by positivity)
    have hhi : ⌈(centsOf ds y1 y2 : ℚ) / 500⌉ ≤ 10 ^ 15 := by
      rw [Int.ceil_le]
      have : (centsOf ds y1 y2 : ℚ) < 10 ^ 15 := by exact_mod_cast hc2
      push_cast
      rw [div_le_iff₀ (by norm_num)]
      linarith
    rw [if_pos ⟨by linarith, by linarith⟩]

/-- C18 (witness): the three examples of the rule, `4.00` (1), `12.25` (3) and
`15.00` (3). -/
theorem validateDesc_twoDecimal_witness :
    twoDecimalText "12".data '2' '5' = "12.25" ∧
      validateDesc implAmd64 ⟨"abc", "12.25"⟩ =
        ⌈((centsOf "12".data '2' '5' : ℕ) : ℚ) / 100 * (1 / 5)⌉ ∧
      validateDesc implAmd64 ⟨"abc", "4.00"⟩ = 1 ∧
      validateDesc implAmd64 ⟨"abc", "12.25"⟩ = 3 ∧
      validateDesc implAmd64 ⟨"abc", "15.00"⟩ = 3 :=
  ⟨by decide, validateDesc_twoDecimal implAmd64 "abc" "12".data '2' '5' (by decide!)
      (by decide) (by decide) (by decide) (by decide!),
    by decide!, by decide!, by decide!⟩

end ReceiptProcessor
